import Mathlib

/-!
# MinOS scheduler core (`MinOS/minos.c`): shallow embedding and properties

The embedding follows the C file statement by statement and the `PendSV_Handler`
assembly instruction by instruction.

* Addresses and register contents are 32-bit words, kept as `Nat` with explicit
  reduction modulo `2 ^ 32` wherever the program computes one.
* Stack memory is a map from the byte address of a word to the word stored there.
  Every access of the program is a word access through a `uint32_t *` or through
  the base register of a load/store-multiple, so cells are whole words.
* `OSTCBTbl` and `OSTCBCur` are file-scope objects of `minos.c`; they are separate
  components of the state. A pointer to a TCB is the index of its slot, `none`
  being the null pointer of a zero-initialised object.
* The two build-time inputs that come from `minos.h` (`OS_MAX_TASKS` and the
  `__FPU_PRESENT && __FPU_USED` condition) are the fields of `Config`.
-/

namespace MinOS

/-! ## Words, addresses, memory -/

/-- Address arithmetic of a 32-bit core: `a + n` modulo `2 ^ 32`. -/
def add32 (a n : Nat) : Nat := (a + n) % 4294967296

/-- Address arithmetic of a 32-bit core: `a - n` modulo `2 ^ 32`, for `n ≤ 2 ^ 32`. -/
def sub32 (a n : Nat) : Nat := (a + 4294967296 - n) % 4294967296

/-- Word-granular memory: the word stored at a byte address. -/
abbrev Mem := Nat → Nat

/-- Store of one word: `*a = v`. -/
def Mem.write (m : Mem) (a v : Nat) : Mem := fun x => if x = a then v else m x

/-- The stores `*(--stk) = v` for each `v` of the list in turn; returns the memory and
the final value of `stk`. -/
def pushWords (m : Mem) (stk : Nat) : List Nat → Mem × Nat
  | [] => (m, stk)
  | v :: vs => pushWords (m.write (sub32 stk 4) v) (sub32 stk 4) vs

/-- Store-multiple to ascending addresses: word `i` of `n` goes to `base + 4 * i`, from
register `f i`. -/
def storeRegs (m : Mem) (base : Nat) (f : Nat → Nat) : Nat → Mem
  | 0 => m
  | n + 1 => (storeRegs m base f n).write (add32 base (4 * n)) (f n)

/-! ## Data model -/

/-- Build-time configuration taken from `minos.h`: the capacity `OS_MAX_TASKS` of the TCB
table and whether `(__FPU_PRESENT == 1) && (__FPU_USED == 1)` holds. -/
structure Config where
  OS_MAX_TASKS : Nat
  fpu : Bool

/-- Modelled from the spec: the record type `OS_TCB` is declared in `minos.h`, which is
not part of the sources. The spec gives its three fields (`saved_sp`, `next`,
`wake_tick`); the names are those `minos.c` uses, and the handler's offsets (`[R1]` for
the stack pointer, `#0x04` for the link) fix the order of the first two. -/
structure OS_TCB where
  OSTCBStkPtr : Nat
  OSTCBNext : Option Nat
  OSTCBWakeTime : Nat

/-- Registers of the core that the kernel reads or writes. `r i` is `Ri`, `s i` is the
single-precision register `Si`; `R0`–`R2` are scratch inside the handler and are
reloaded by the exception return, so the handler's use of them is kept local. -/
structure CPU where
  r : Nat → Nat
  s : Nat → Nat
  fpscr : Nat
  psp : Nat
  lr : Nat
  primask : Bool
  pendsvset : Bool
  pendsvPrio : Nat

/-- Whole state: the globals of `minos.c` (including the function-static `task_num`), the
stack memory and the core. -/
structure State where
  OSTCBCur : Option Nat
  OSTCBTbl : Nat → OS_TCB
  SysTime : Nat
  task_num : Nat
  mem : Mem
  cpu : CPU

/-- Zero-initialised TCB. -/
def OS_TCB.zero : OS_TCB := { OSTCBStkPtr := 0, OSTCBNext := none, OSTCBWakeTime := 0 }

/-- State at entry of `main`: the statics are zero-initialised, `SysTime = 0`,
`task_num = 0`; the stack memory and the core registers are whatever they are. -/
def initState (mem : Mem) (cpu : CPU) : State :=
  { OSTCBCur := none, OSTCBTbl := fun _ => OS_TCB.zero, SysTime := 0, task_num := 0,
    mem := mem, cpu := cpu }

/-- Assignment to a field of `OSTCBTbl[k]`. -/
def updTCB (tbl : Nat → OS_TCB) (k : Nat) (f : OS_TCB → OS_TCB) : Nat → OS_TCB :=
  fun i => if i = k then f (tbl i) else tbl i

/-! ## `TaskCreate` -/

/-- Words stored by lines 35–50 after the xPSR word, in program order: PC, LR, R12, R3,
R2, R1, R0, then R11 down to R4. -/
def intFrame (task : Nat) : List Nat :=
  [task % 4294967296, 0xFFFFFFFE, 0x12121212, 0x03030303, 0x02020202, 0x01010101,
   0x00000000,
   0x11111111, 0x10101010, 0x09090909, 0x08080808, 0x07070707, 0x06060606, 0x05050505,
   0x04040404]

/-- Words stored by lines 53–86 (FPU build), in program order: FPSCR, then S31 down to
S0. -/
def fpuFrame : List Nat :=
  [0x02000000,
   0x41F80000, 0x41F00000, 0x41E80000, 0x41E00000, 0x41D80000, 0x41D00000, 0x41C80000,
   0x41C00000, 0x41B80000, 0x41B00000, 0x41A80000, 0x41A00000, 0x41980000, 0x41900000,
   0x41880000, 0x41800000, 0x41700000, 0x41600000, 0x41500000, 0x41400000, 0x41300000,
   0x41200000, 0x41100000, 0x41000000, 0x40E00000, 0x40C00000, 0x40A00000, 0x40800000,
   0x40400000, 0x40000000, 0x3F800000, 0x00000000]

/-- Words stored below the xPSR word by `TaskCreate` in the build `cfg`, in program order. -/
def frameWords (cfg : Config) (task : Nat) : List Nat :=
  intFrame task ++ (if cfg.fpu then fpuFrame else [])

/-- How a call of `TaskCreate` ends: it returns, or it is caught in `while(1);` with the
state it had on entering the loop. -/
inductive Outcome where
  | returned (s : State)
  | spins (s : State)

/-- `TaskCreate(task, stk)`, lines 25–100. -/
def TaskCreate (cfg : Config) (task stk : Nat) (s : State) : Outcome :=
  if s.task_num ≥ cfg.OS_MAX_TASKS then
    Outcome.spins s
  else
    let m0 := s.mem.write stk 0x01000000
    let p1 := pushWords m0 stk (intFrame task)
    let p2 := if cfg.fpu then pushWords p1.1 p1.2 fpuFrame else p1
    let cur := s.task_num
    let tbl := updTCB s.OSTCBTbl cur (fun t => { t with OSTCBStkPtr := p2.2 })
    let tbl := updTCB tbl cur (fun t => { t with OSTCBNext := some 0 })
    let tbl := updTCB tbl cur (fun t => { t with OSTCBWakeTime := 0 })
    let tbl := if s.task_num > 0 then
        updTCB tbl (s.task_num - 1) (fun t => { t with OSTCBNext := some cur })
      else tbl
    Outcome.returned
      { s with OSTCBCur := some cur, OSTCBTbl := tbl, mem := p2.1,
               task_num := (s.task_num + 1) % 256 }

/-- A sequence of `TaskCreate` calls, each on the arguments `(task, stk)`; `none` when one
of them does not return. -/
def createAll (cfg : Config) : List (Nat × Nat) → State → Option State
  | [], s => some s
  | a :: rest, s =>
    match TaskCreate cfg a.1 a.2 s with
    | Outcome.returned s1 => createAll cfg rest s1
    | Outcome.spins _ => none

/-- Following `OSTCBNext` links `m` times from slot `k`. -/
def follow (s : State) : Nat → Nat → Option Nat
  | 0, k => some k
  | m + 1, k =>
    match (s.OSTCBTbl k).OSTCBNext with
    | some j => follow s m j
    | none => none

/-! ## `__Sched`, `OSStart`, `OSTimeDly`, `SysTick_Handler` -/

/-- `__Sched()`, line 109: sets `PENDSVSET` in `SCB->ICSR`. -/
def __Sched (s : State) : State := { s with cpu := { s.cpu with pendsvset := true } }

/-- `OSStart()`, lines 117–123. -/
def OSStart (s : State) : State :=
  let s1 := { s with cpu := { s.cpu with pendsvPrio := 0xFF } }
  let s2 := { s1 with cpu := { s1.cpu with psp := 0 } }
  let s3 := __Sched s2
  { s3 with cpu := { s3.cpu with primask := false } }

/-- Modelled from the spec: `OSTime_Now()` comes from `minos.h`, which is not part of the
sources; the spec says `now()` returns the current tick value. -/
def OSTime_Now (s : State) : Nat := s.SysTime

/-- Line 133 of `OSTimeDly(ticks)`: `OSTCBCur->OSTCBWakeTime = OSTime_Now() + ticks`, with
`ticks` a `uint16_t` and the sum a 64-bit value. `none` when `OSTCBCur` is null. -/
def OSTimeDly_arm (ticks : Nat) (s : State) : Option State :=
  match s.OSTCBCur with
  | none => none
  | some c =>
    some { s with OSTCBTbl := updTCB s.OSTCBTbl c (fun t =>
      { t with OSTCBWakeTime := (OSTime_Now s + ticks % 65536) % 18446744073709551616 }) }

/-- `SysTick_Handler()`, line 248: `SysTime++` on a `uint64_t`. -/
def SysTick_Handler (s : State) : State :=
  { s with SysTime := (s.SysTime + 1) % 18446744073709551616 }

/-! ## `PendSV_Handler` -/

/-- Lines 151–165: mask interrupts, and unless `PSP` is zero push `R4`–`R11` (then, in the
FPU build, `FPSCR` and `S0`–`S31`) below `PSP` and store the resulting address in
`OSTCBCur->OSTCBStkPtr`. `none` when the store goes through a null `OSTCBCur`. -/
def PendSV_save (cfg : Config) (s : State) : Option State :=
  let cpu := { s.cpu with primask := true }
  let r0 := cpu.psp
  if r0 = 0 then
    some { s with cpu := cpu }
  else
    let r0 := sub32 r0 32
    let mem := storeRegs s.mem r0 (fun i => cpu.r (4 + i)) 8
    let p :=
      if cfg.fpu then
        let r1 := cpu.fpscr
        let r0 := sub32 r0 4
        let mem := mem.write r0 r1
        let r0 := sub32 r0 128
        (storeRegs mem r0 cpu.s 32, r0)
      else (mem, r0)
    match s.OSTCBCur with
    | none => none
    | some c =>
      some { s with
        OSTCBTbl := updTCB s.OSTCBTbl c (fun t => { t with OSTCBStkPtr := p.2 }),
        mem := p.1, cpu := cpu }

/-- Lines 167–236 (label `_nosave` onward): `OSTCBCur = OSTCBCur->OSTCBNext`, load the
stack pointer from the new TCB, pop (in the FPU build) `S0`–`S31` and `FPSCR`, pop
`R4`–`R11`, write `PSP`, set bit 2 of `LR`, unmask interrupts. `none` when a null TCB
pointer is dereferenced. -/
def PendSV_restore (cfg : Config) (s : State) : Option State :=
  match s.OSTCBCur with
  | none => none
  | some c =>
    match (s.OSTCBTbl c).OSTCBNext with
    | none => none
    | some n =>
      let r0 := (s.OSTCBTbl n).OSTCBStkPtr
      let cpu := s.cpu
      let p :=
        if cfg.fpu then
          let cpu1 := { cpu with s := fun i => if i < 32 then s.mem (add32 r0 (4 * i)) else cpu.s i }
          let r0 := add32 r0 128
          let r1 := s.mem r0
          let r0 := add32 r0 4
          ({ cpu1 with fpscr := r1 }, r0)
        else (cpu, r0)
      let cpu := p.1
      let r0 := p.2
      let cpu := { cpu with
        r := fun i => if 4 ≤ i ∧ i ≤ 11 then s.mem (add32 r0 (4 * (i - 4))) else cpu.r i }
      let r0 := add32 r0 32
      let cpu := { cpu with psp := r0 }
      let cpu := { cpu with lr := cpu.lr ||| 4 }
      let cpu := { cpu with primask := false }
      some { s with OSTCBCur := some n, cpu := cpu }

/-- `PendSV_Handler`, lines 145–239: the save path followed by the restore path. -/
def PendSV_Handler (cfg : Config) (s : State) : Option State :=
  match PendSV_save cfg s with
  | none => none
  | some s1 => PendSV_restore cfg s1

/-! ## Interleavings after `OSStart` -/

/-- What can happen once the scheduler runs. `task cpu mem` is thread-mode execution
between two exceptions (together with the hardware stacking on exception entry and
return): it leaves the registers and the stack memory in any state `cpu`, `mem`, and
does not write the objects of `minos.c`, which task code reaches only through
`OSTimeDly`. `delay ticks` is the store of `OSTimeDly`, `tick` a run of
`SysTick_Handler`, `pendsv` a run of `PendSV_Handler`. -/
inductive Event where
  | task (cpu : CPU) (mem : Mem)
  | delay (ticks : Nat)
  | tick
  | pendsv

/-- Effect of one event. -/
def step (cfg : Config) : Event → State → Option State
  | Event.task cpu mem, s => some { s with cpu := cpu, mem := mem }
  | Event.delay ticks, s => OSTimeDly_arm ticks s
  | Event.tick, s => some (SysTick_Handler s)
  | Event.pendsv, s => PendSV_Handler cfg s

/-- Effect of a sequence of events. -/
def run (cfg : Config) : List Event → State → Option State
  | [], s => some s
  | e :: es, s =>
    match step cfg e s with
    | none => none
    | some s1 => run cfg es s1

/-- The slots switched in by the runs of `PendSV_Handler` within a sequence of events, in
order. -/
def switchLog (cfg : Config) : List Event → State → List (Option Nat)
  | [], _ => []
  | e :: es, s =>
    match step cfg e s with
    | none => []
    | some s1 =>
      match e with
      | Event.pendsv => s1.OSTCBCur :: switchLog cfg es s1
      | _ => switchLog cfg es s1


/-! ## Concrete inputs for the worked instances -/

/-- A register file with recognisable contents; `PSP` is in the first task's stack. -/
def Demo.cpu : CPU :=
  { r := fun i => 100 + i, s := fun i => 200 + i, fpscr := 7, psp := 0x200003E0,
    lr := 0xFFFFFFF9, primask := false, pendsvset := false, pendsvPrio := 0 }

/-- Memory holding zero everywhere. -/
def Demo.mem : Mem := fun _ => 0

/-- Arguments of `n` creations: distinct entry points in flash and stacks of 512 bytes in
SRAM, each given by the address of its last word. -/
def Demo.tasks (n : Nat) : List (Nat × Nat) :=
  (List.range n).map (fun i => (0x08000101 + 16 * i, 0x20000200 + 512 * (i + 1) - 4))

/-- State after the first `n` creations of `Demo.tasks` (the state at entry of `main` if
one of them does not return). -/
def Demo.created (cfg : Config) (n : Nat) : State :=
  match createAll cfg (Demo.tasks n) (initState Demo.mem Demo.cpu) with
  | some s => s
  | none => initState Demo.mem Demo.cpu

/-- State `Demo.created cfg 1` after the save path of the handler (unchanged if the save
path faults). -/
def Demo.saved (cfg : Config) : State :=
  match PendSV_save cfg (Demo.created cfg 1) with
  | some s => s
  | none => Demo.created cfg 1

/-- Number of runs of `PendSV_Handler` in a sequence of events. -/
def switches : List Event → Nat
  | [] => 0
  | Event.pendsv :: es => switches es + 1
  | _ :: es => switches es

/-! ## The loop of `OSTimeDly` -/

/-- One evaluation of the loop of `OSTimeDly`, lines 134–137: the condition
`OSTime_Now() < OSTCBCur->OSTCBWakeTime` and, when it holds, the body `__Sched()`.
Returns whether the loop goes on, and the state. `none` when `OSTCBCur` is null. -/
def OSTimeDly_iter (s : State) : Option (Bool × State) :=
  match s.OSTCBCur with
  | none => none
  | some c =>
    if OSTime_Now s < (s.OSTCBTbl c).OSTCBWakeTime then some (true, __Sched s)
    else some (false, s)

/-- The loop of `OSTimeDly` run against its environment. `env i` is everything that
happens between the previous statement of the function and the `i`-th evaluation of the
loop condition: interrupts and, after a `__Sched()`, the pended context switch, the
other tasks and the switch back. Returns the state in which the function returns and
the number of times the body ran; `none` when the loop is still running after `fuel`
evaluations of the condition, or `OSTCBCur` is null. -/
def OSTimeDly_loop (env : Nat → State → State) : Nat → Nat → State → Option (State × Nat)
  | 0, _, _ => none
  | fuel + 1, i, s =>
    match OSTimeDly_iter (env i s) with
    | none => none
    | some (false, s1) => some (s1, 0)
    | some (true, s1) =>
      match OSTimeDly_loop env fuel (i + 1) s1 with
      | none => none
      | some (s2, n) => some (s2, n + 1)

/-- `OSTimeDly(ticks)`, lines 131–138, run against its environment: the store of line 133,
then the loop. -/
def OSTimeDly (ticks : Nat) (env : Nat → State → State) (fuel : Nat) (s : State) :
    Option (State × Nat) :=
  match OSTimeDly_arm ticks s with
  | none => none
  | some s1 => OSTimeDly_loop env fuel 0 s1

/-- State in which the loop condition is evaluated for the `k`-th time counting from
evaluation `i`, which starts in `s`, when all evaluations before it find the condition
true. -/
def OSTimeDly_at (env : Nat → State → State) : Nat → Nat → State → State
  | i, 0, s => env i s
  | i, k + 1, s => OSTimeDly_at env (i + 1) k (__Sched (env i s))

/-- State after `n` runs of `SysTick_Handler`. -/
def tickN : Nat → State → State
  | 0, s => s
  | n + 1, s => tickN n (SysTick_Handler s)

/-! # Properties

## Memory lemmas -/

theorem write_same (m : Mem) (a v : Nat) : m.write a v a = v := by
  simp [Mem.write]

theorem write_other (m : Mem) (a v x : Nat) (h : x ≠ a) : m.write a v x = m x := by
  simp [Mem.write, h]

theorem pushWords_append (m : Mem) (stk : Nat) (vs ws : List Nat) :
    pushWords m stk (vs ++ ws) = pushWords (pushWords m stk vs).1 (pushWords m stk vs).2 ws := by
  induction vs generalizing m stk with
  | nil => rfl
  | cons v vs ih => simp [pushWords, ih]

theorem pushWords_snd (m : Mem) (stk : Nat) (vs : List Nat) (hs : stk < 4294967296)
    (hl : 4 * vs.length ≤ 4294967296) :
    (pushWords m stk vs).2 = sub32 stk (4 * vs.length) := by
  induction vs generalizing m stk with
  | nil => simp [pushWords, sub32]; omega
  | cons v vs ih =>
    simp only [pushWords, List.length_cons] at hl ⊢
    rw [ih _ _ (by unfold sub32; omega) (by omega)]
    unfold sub32; omega

theorem pushWords_other (m : Mem) (stk : Nat) (vs : List Nat) (x : Nat)
    (h : ∀ i, i < vs.length → x ≠ sub32 stk (4 * (i + 1))) (hs : stk < 4294967296)
    (hl : 4 * vs.length ≤ 4294967296) :
    (pushWords m stk vs).1 x = m x := by
  induction vs generalizing m stk with
  | nil => rfl
  | cons v vs ih =>
    simp only [pushWords, List.length_cons] at hl h ⊢
    rw [ih _ _ _ (by unfold sub32; omega) (by omega)]
    · exact write_other _ _ _ _ (h 0 (by omega))
    · intro i hi
      have := h (i + 1) (by omega)
      unfold sub32 at this ⊢; omega

theorem pushWords_read (m : Mem) (stk : Nat) (vs : List Nat) (i : Nat) (hi : i < vs.length)
    (hs : stk < 4294967296) (hl : 4 * vs.length ≤ 4294967296) :
    (pushWords m stk vs).1 (sub32 stk (4 * (i + 1))) = vs.getD i 0 := by
  induction vs generalizing m stk i with
  | nil => simp at hi
  | cons v vs ih =>
    simp only [pushWords, List.length_cons] at hl hi ⊢
    cases i with
    | zero =>
      rw [pushWords_other _ _ _ _ _ (by unfold sub32; omega) (by omega)]
      · exact write_same _ _ _
      · intro j hj; unfold sub32; omega
    | succ i =>
      have := ih (m.write (sub32 stk 4) v) (sub32 stk 4) i (by omega) (by unfold sub32; omega)
        (by omega)
      have e : sub32 stk (4 * (i + 1 + 1)) = sub32 (sub32 stk 4) (4 * (i + 1)) := by
        unfold sub32; omega
      rw [e, this, List.getD_cons_succ]

theorem storeRegs_other (m : Mem) (base : Nat) (f : Nat → Nat) (n x : Nat)
    (h : ∀ i, i < n → x ≠ add32 base (4 * i)) : storeRegs m base f n x = m x := by
  induction n with
  | zero => rfl
  | succ n ih =>
    simp only [storeRegs]
    rw [write_other _ _ _ _ (h n (by omega))]
    exact ih (fun i hi => h i (by omega))

theorem storeRegs_read (m : Mem) (base : Nat) (f : Nat → Nat) (n i : Nat) (hi : i < n)
    (hl : 4 * n ≤ 4294967296) : storeRegs m base f n (add32 base (4 * i)) = f i := by
  induction n with
  | zero => omega
  | succ n ih =>
    simp only [storeRegs]
    by_cases hin : i = n
    · subst hin; exact write_same _ _ _
    · rw [write_other _ _ _ _ (by unfold add32; omega)]
      exact ih (by omega) (by omega)


/-! ## `TaskCreate` lemmas -/

theorem frameWords_length (cfg : Config) (task : Nat) :
    (frameWords cfg task).length = if cfg.fpu then 48 else 15 := by
  cases h : cfg.fpu <;> simp [frameWords, h, intFrame, fpuFrame]

theorem TaskCreate_spec (cfg : Config) (task stk : Nat) (s : State)
    (h : s.task_num < cfg.OS_MAX_TASKS) :
    ∃ s1, TaskCreate cfg task stk s = Outcome.returned s1 ∧
      s1.mem = (pushWords (s.mem.write stk 0x01000000) stk (frameWords cfg task)).1 ∧
      (s1.OSTCBTbl s.task_num).OSTCBStkPtr =
        (pushWords (s.mem.write stk 0x01000000) stk (frameWords cfg task)).2 ∧
      (s1.OSTCBTbl s.task_num).OSTCBNext = some 0 ∧
      (s1.OSTCBTbl s.task_num).OSTCBWakeTime = 0 ∧
      s1.OSTCBCur = some s.task_num ∧
      s1.task_num = (s.task_num + 1) % 256 ∧
      (∀ k, k + 1 = s.task_num → (s1.OSTCBTbl k).OSTCBNext = some s.task_num) ∧
      (∀ k, k ≠ s.task_num → k + 1 ≠ s.task_num → s1.OSTCBTbl k = s.OSTCBTbl k) ∧
      s1.SysTime = s.SysTime ∧ s1.cpu = s.cpu := by
  refine ⟨_, by simp only [TaskCreate, ge_iff_le, not_le.mpr h, if_false]; rfl, ?_⟩
  have hp : (if cfg.fpu then pushWords (pushWords (s.mem.write stk 0x01000000) stk (intFrame task)).1
        (pushWords (s.mem.write stk 0x01000000) stk (intFrame task)).2 fpuFrame
      else pushWords (s.mem.write stk 0x01000000) stk (intFrame task)) =
      pushWords (s.mem.write stk 0x01000000) stk (frameWords cfg task) := by
    cases hf : cfg.fpu <;> simp [frameWords, hf, pushWords_append]
  refine ⟨?_, ?_, ?_, ?_, rfl, rfl, ?_, ?_, rfl, rfl⟩
  · simp only [hp]
  · by_cases h0 : s.task_num > 0
    · have : s.task_num ≠ s.task_num - 1 := by omega
      simp [updTCB, h0, this, hp]
    · simp [updTCB, h0, hp]
  · by_cases h0 : s.task_num > 0
    · have : s.task_num ≠ s.task_num - 1 := by omega
      simp [updTCB, h0, this]
    · simp [updTCB, h0]
  · by_cases h0 : s.task_num > 0
    · have : s.task_num ≠ s.task_num - 1 := by omega
      simp [updTCB, h0, this]
    · simp [updTCB, h0]
  · intro k hk
    have h0 : s.task_num > 0 := by omega
    have h1 : k = s.task_num - 1 := by omega
    simp [updTCB, h0, h1]
  · intro k hk1 hk2
    by_cases h0 : s.task_num > 0
    · have : k ≠ s.task_num - 1 := by omega
      simp [updTCB, h0, this, hk1]
    · simp [updTCB, h0, hk1]


theorem TaskCreate_frame (cfg : Config) (task stk : Nat) (s : State)
    (h : s.task_num < cfg.OS_MAX_TASKS) (hstk : stk < 4294967296) :
    ∃ s1, TaskCreate cfg task stk s = Outcome.returned s1 ∧
      s1.mem stk = 0x01000000 ∧
      (∀ i, i < (frameWords cfg task).length →
        s1.mem (sub32 stk (4 * (i + 1))) = (frameWords cfg task).getD i 0) ∧
      (∀ x, x ≠ stk → (∀ i, i < (frameWords cfg task).length → x ≠ sub32 stk (4 * (i + 1))) →
        s1.mem x = s.mem x) ∧
      (s1.OSTCBTbl s.task_num).OSTCBStkPtr = sub32 stk (4 * (frameWords cfg task).length) ∧
      (s1.OSTCBTbl s.task_num).OSTCBWakeTime = 0 := by
  obtain ⟨s1, h1, hm, hsp, -, hw, -⟩ := TaskCreate_spec cfg task stk s h
  have hl : 4 * (frameWords cfg task).length ≤ 4294967296 := by
    rw [frameWords_length]; split <;> omega
  have hlen : (frameWords cfg task).length ≤ 48 := by
    rw [frameWords_length]; split <;> omega
  refine ⟨s1, h1, ?_, ?_, ?_, ?_, hw⟩
  · rw [hm, pushWords_other _ _ _ _ _ hstk hl]
    · exact write_same _ _ _
    · intro i hi; unfold sub32; omega
  · intro i hi
    rw [hm]; exact pushWords_read _ _ _ _ hi hstk hl
  · intro x hx hxi
    rw [hm, pushWords_other _ _ _ _ hxi hstk hl]
    exact write_other _ _ _ _ hx
  · rw [hsp]; exact pushWords_snd _ _ _ hstk hl

theorem frameWords_getD_int (cfg : Config) (task i : Nat) (hi : i < 15) :
    (frameWords cfg task).getD i 0 = (intFrame task).getD i 0 := by
  have : i < (intFrame task).length := by simpa [intFrame] using hi
  simp [frameWords, List.getD_eq_getElem?_getD, List.getElem?_append_left this]

theorem frameWords_getD_fpu (cfg : Config) (task i : Nat) (hf : cfg.fpu = true) :
    (frameWords cfg task).getD (15 + i) 0 = fpuFrame.getD i 0 := by
  have hl : (intFrame task).length = 15 := by simp [intFrame]
  have : (intFrame task).length ≤ 15 + i := by omega
  simp [frameWords, hf, List.getD_eq_getElem?_getD, List.getElem?_append_right this, hl]

/-- The sixteen integer words of the frame, in either build. -/
theorem TaskCreate_int_words (cfg : Config) (s : State) (task stk : Nat)
    (hroom : s.task_num < cfg.OS_MAX_TASKS)
    (htask : task < 4294967296) (hstk : stk < 4294967296) :
    ∃ s1, TaskCreate cfg task stk s = Outcome.returned s1 ∧
      (s1.mem stk = 0x01000000 ∧
      s1.mem (sub32 stk 4) = task ∧
      s1.mem (sub32 stk 8) = 0xFFFFFFFE ∧
      s1.mem (sub32 stk 12) = 0x12121212 ∧
      s1.mem (sub32 stk 16) = 0x03030303 ∧
      s1.mem (sub32 stk 20) = 0x02020202 ∧
      s1.mem (sub32 stk 24) = 0x01010101 ∧
      s1.mem (sub32 stk 28) = 0 ∧
      s1.mem (sub32 stk 32) = 0x11111111 ∧
      s1.mem (sub32 stk 36) = 0x10101010 ∧
      s1.mem (sub32 stk 40) = 0x09090909 ∧
      s1.mem (sub32 stk 44) = 0x08080808 ∧
      s1.mem (sub32 stk 48) = 0x07070707 ∧
      s1.mem (sub32 stk 52) = 0x06060606 ∧
      s1.mem (sub32 stk 56) = 0x05050505 ∧
      s1.mem (sub32 stk 60) = 0x04040404) ∧
      (∀ i, i < (frameWords cfg task).length →
        s1.mem (sub32 stk (4 * (i + 1))) = (frameWords cfg task).getD i 0) ∧
      (s1.OSTCBTbl s.task_num).OSTCBStkPtr = sub32 stk (4 * (frameWords cfg task).length) ∧
      (s1.OSTCBTbl s.task_num).OSTCBWakeTime = 0 ∧
      s1.OSTCBCur = some s.task_num := by
  obtain ⟨s1, h1, hx, hr, -, hsp, hw⟩ := TaskCreate_frame cfg task stk s hroom hstk
  obtain ⟨s1b, h1b, -, -, -, -, hcur, -⟩ := TaskCreate_spec cfg task stk s hroom
  have hs : s1b = s1 := by rw [h1] at h1b; injection h1b with h; exact h.symm
  subst hs
  have hlen : 15 ≤ (frameWords cfg task).length := by
    rw [frameWords_length]; split <;> omega
  have hpc : task % 4294967296 = task := Nat.mod_eq_of_lt htask
  have hi : ∀ i, i < 15 → s1b.mem (sub32 stk (4 * (i + 1))) = (intFrame task).getD i 0 := by
    intro i hi
    rw [hr i (by omega), frameWords_getD_int cfg task i hi]
  refine ⟨s1b, h1, ⟨hx, ?_, ?_, ?_, ?_, ?_, ?_, ?_, ?_, ?_, ?_, ?_, ?_, ?_, ?_, ?_⟩, hr, hsp, hw,
    hcur⟩
  · have := hi 0 (by omega); simpa [intFrame, hpc] using this
  · have := hi 1 (by omega); simpa [intFrame] using this
  · have := hi 2 (by omega); simpa [intFrame] using this
  · have := hi 3 (by omega); simpa [intFrame] using this
  · have := hi 4 (by omega); simpa [intFrame] using this
  · have := hi 5 (by omega); simpa [intFrame] using this
  · have := hi 6 (by omega); simpa [intFrame] using this
  · have := hi 7 (by omega); simpa [intFrame] using this
  · have := hi 8 (by omega); simpa [intFrame] using this
  · have := hi 9 (by omega); simpa [intFrame] using this
  · have := hi 10 (by omega); simpa [intFrame] using this
  · have := hi 11 (by omega); simpa [intFrame] using this
  · have := hi 12 (by omega); simpa [intFrame] using this
  · have := hi 13 (by omega); simpa [intFrame] using this
  · have := hi 14 (by omega); simpa [intFrame] using this

/-! ## Layout of the frame built by `TaskCreate` -/

/-- C2: in the build without FPU, for every entry address `task` and every `stk`, a call
`TaskCreate(task, stk)` with a free slot returns and leaves, from `stk` downward, the
words xPSR = 0x01000000, PC = task, LR = 0xFFFFFFFE, R12, R3, R2, R1, R0 = 0, then R11,
R10, R9, R8, R7, R6, R5, R4 (16 words); the recorded `OSTCBStkPtr` is the address of the
R4 word, 15 words below `stk`, and `OSTCBWakeTime` of the new TCB is 0. -/
theorem TaskCreate_layout_nofpu (cfg : Config) (s : State) (task stk : Nat)
    (hfpu : cfg.fpu = false) (hroom : s.task_num < cfg.OS_MAX_TASKS)
    (htask : task < 4294967296) (hstk : stk < 4294967296) :
    ∃ s1, TaskCreate cfg task stk s = Outcome.returned s1 ∧
      s1.mem stk = 0x01000000 ∧
      s1.mem (sub32 stk 4) = task ∧
      s1.mem (sub32 stk 8) = 0xFFFFFFFE ∧
      s1.mem (sub32 stk 12) = 0x12121212 ∧
      s1.mem (sub32 stk 16) = 0x03030303 ∧
      s1.mem (sub32 stk 20) = 0x02020202 ∧
      s1.mem (sub32 stk 24) = 0x01010101 ∧
      s1.mem (sub32 stk 28) = 0 ∧
      s1.mem (sub32 stk 32) = 0x11111111 ∧
      s1.mem (sub32 stk 36) = 0x10101010 ∧
      s1.mem (sub32 stk 40) = 0x09090909 ∧
      s1.mem (sub32 stk 44) = 0x08080808 ∧
      s1.mem (sub32 stk 48) = 0x07070707 ∧
      s1.mem (sub32 stk 52) = 0x06060606 ∧
      s1.mem (sub32 stk 56) = 0x05050505 ∧
      s1.mem (sub32 stk 60) = 0x04040404 ∧
      (s1.OSTCBTbl s.task_num).OSTCBStkPtr = sub32 stk 60 ∧
      (s1.OSTCBTbl s.task_num).OSTCBWakeTime = 0 := by
  obtain ⟨s1, h1, hw, -, hsp, hwk, -⟩ := TaskCreate_int_words cfg s task stk hroom htask hstk
  have hlen : (frameWords cfg task).length = 15 := by rw [frameWords_length, hfpu]; rfl
  rw [hlen] at hsp
  obtain ⟨a0, a1, a2, a3, a4, a5, a6, a7, a8, a9, a10, a11, a12, a13, a14, a15⟩ := hw
  exact ⟨s1, h1, a0, a1, a2, a3, a4, a5, a6, a7, a8, a9, a10, a11, a12, a13, a14, a15, hsp, hwk⟩

/-- Witness for C2: the first `TaskCreate` of a build with four slots and no FPU. -/
theorem TaskCreate_layout_nofpu_witness :
    (initState Demo.mem Demo.cpu).task_num < 4 ∧
    ∃ s1, TaskCreate ⟨4, false⟩ 0x08000101 0x20000400 (initState Demo.mem Demo.cpu)
        = Outcome.returned s1 ∧
      s1.mem 0x20000400 = 0x01000000 ∧
      s1.mem (sub32 0x20000400 4) = 0x08000101 ∧
      s1.mem (sub32 0x20000400 60) = 0x04040404 ∧
      (s1.OSTCBTbl 0).OSTCBStkPtr = sub32 0x20000400 60 := by
  obtain ⟨s1, h1, a0, a1, -, -, -, -, -, -, -, -, -, -, -, -, -, a15, hsp, -⟩ :=
    TaskCreate_layout_nofpu ⟨4, false⟩ (initState Demo.mem Demo.cpu) 0x08000101 0x20000400 rfl
      (by decide) (by decide) (by decide)
  exact ⟨by decide, s1, h1, a0, a1, a15, hsp⟩

/-- C3: in the FPU build, for every entry address `task` and every `stk`, a call
`TaskCreate(task, stk)` with a free slot returns and leaves the sixteen integer words of
the layout without FPU from `stk` downward, directly below the R4 word FPSCR = 0x02000000,
and below that the 32 words S31, S30, ..., S0 in descending address order (word `i` below
FPSCR holds the value the source gives S(31 - i)); the recorded `OSTCBStkPtr` is the
address of the S0 word, 48 words below the xPSR word at `stk`. -/
theorem TaskCreate_layout_fpu (cfg : Config) (s : State) (task stk : Nat)
    (hfpu : cfg.fpu = true) (hroom : s.task_num < cfg.OS_MAX_TASKS)
    (htask : task < 4294967296) (hstk : stk < 4294967296) :
    ∃ s1, TaskCreate cfg task stk s = Outcome.returned s1 ∧
      s1.mem stk = 0x01000000 ∧
      s1.mem (sub32 stk 4) = task ∧
      s1.mem (sub32 stk 8) = 0xFFFFFFFE ∧
      s1.mem (sub32 stk 12) = 0x12121212 ∧
      s1.mem (sub32 stk 16) = 0x03030303 ∧
      s1.mem (sub32 stk 20) = 0x02020202 ∧
      s1.mem (sub32 stk 24) = 0x01010101 ∧
      s1.mem (sub32 stk 28) = 0 ∧
      s1.mem (sub32 stk 32) = 0x11111111 ∧
      s1.mem (sub32 stk 36) = 0x10101010 ∧
      s1.mem (sub32 stk 40) = 0x09090909 ∧
      s1.mem (sub32 stk 44) = 0x08080808 ∧
      s1.mem (sub32 stk 48) = 0x07070707 ∧
      s1.mem (sub32 stk 52) = 0x06060606 ∧
      s1.mem (sub32 stk 56) = 0x05050505 ∧
      s1.mem (sub32 stk 60) = 0x04040404 ∧
      s1.mem (sub32 stk 64) = 0x02000000 ∧
      (∀ i, i < 32 → s1.mem (sub32 stk (4 * (17 + i))) = fpuFrame.getD (1 + i) 0) ∧
      s1.mem (sub32 stk 68) = 0x41F80000 ∧
      s1.mem (sub32 stk 192) = 0 ∧
      (s1.OSTCBTbl s.task_num).OSTCBStkPtr = sub32 stk 192 ∧
      (s1.OSTCBTbl s.task_num).OSTCBWakeTime = 0 := by
  obtain ⟨s1, h1, hw, hr, hsp, hwk, -⟩ := TaskCreate_int_words cfg s task stk hroom htask hstk
  have hlen : (frameWords cfg task).length = 48 := by rw [frameWords_length, hfpu]; rfl
  rw [hlen] at hsp hr
  have hf : ∀ i, i < 33 → s1.mem (sub32 stk (4 * (16 + i))) = fpuFrame.getD i 0 := by
    intro i hi
    have := hr (15 + i) (by omega)
    rw [frameWords_getD_fpu cfg task i hfpu] at this
    rw [← this]
    have e : 4 * (15 + i + 1) = 4 * (16 + i) := by omega
    rw [e]
  obtain ⟨a0, a1, a2, a3, a4, a5, a6, a7, a8, a9, a10, a11, a12, a13, a14, a15⟩ := hw
  refine ⟨s1, h1, a0, a1, a2, a3, a4, a5, a6, a7, a8, a9, a10, a11, a12, a13, a14, a15, ?_, ?_,
    ?_, ?_, hsp, hwk⟩
  · have := hf 0 (by omega); simpa [fpuFrame] using this
  · intro i hi
    have := hf (1 + i) (by omega)
    have e : 4 * (16 + (1 + i)) = 4 * (17 + i) := by omega
    rw [e] at this
    exact this
  · have := hf 1 (by omega); simpa [fpuFrame] using this
  · have := hf 32 (by omega); simpa [fpuFrame] using this

/-- Witness for C3: the first `TaskCreate` of a build with four slots and the FPU. -/
theorem TaskCreate_layout_fpu_witness :
    (initState Demo.mem Demo.cpu).task_num < 4 ∧
    ∃ s1, TaskCreate ⟨4, true⟩ 0x08000101 0x20000400 (initState Demo.mem Demo.cpu)
        = Outcome.returned s1 ∧
      s1.mem 0x20000400 = 0x01000000 ∧
      s1.mem (sub32 0x20000400 64) = 0x02000000 ∧
      s1.mem (sub32 0x20000400 192) = 0 ∧
      (s1.OSTCBTbl 0).OSTCBStkPtr = sub32 0x20000400 192 := by
  obtain ⟨s1, h1, a0, -, -, -, -, -, -, -, -, -, -, -, -, -, -, -, a16, -, -, a48, hsp, -⟩ :=
    TaskCreate_layout_fpu ⟨4, true⟩ (initState Demo.mem Demo.cpu) 0x08000101 0x20000400 rfl
      (by decide) (by decide) (by decide)
  exact ⟨by decide, s1, h1, a0, a16, a48, hsp⟩



/-! ## The ring built by `TaskCreate` -/

theorem createAll_ring (cfg : Config) (args : List (Nat × Nat)) (s : State) (n : Nat)
    (htn : s.task_num = n % 256) (h256 : n + args.length ≤ 256)
    (hmax : n + args.length ≤ cfg.OS_MAX_TASKS)
    (hring : ∀ k, k < n → (s.OSTCBTbl k).OSTCBNext = some ((k + 1) % n))
    (hcur : 0 < n → s.OSTCBCur = some (n - 1)) :
    ∃ s1, createAll cfg args s = some s1 ∧
      s1.task_num = (n + args.length) % 256 ∧
      (∀ k, k < n + args.length →
        (s1.OSTCBTbl k).OSTCBNext = some ((k + 1) % (n + args.length))) ∧
      (0 < n + args.length → s1.OSTCBCur = some (n + args.length - 1)) ∧
      s1.SysTime = s.SysTime ∧ s1.cpu = s.cpu := by
  induction args generalizing s n with
  | nil => exact ⟨s, rfl, by simpa using htn, by simpa using hring, by simpa using hcur, rfl, rfl⟩
  | cons a rest ih =>
    simp only [List.length_cons] at h256 hmax ⊢
    have hn : n < 256 := by omega
    have htn1 : s.task_num = n := by rw [htn]; exact Nat.mod_eq_of_lt hn
    obtain ⟨s1, h1, -, -, hnx, -, hc, ht, hprev, hoth, hsys, hcpu⟩ :=
      TaskCreate_spec cfg a.1 a.2 s (by omega)
    rw [htn1] at hnx hc ht hprev hoth
    have hr1 : ∀ k, k < n + 1 → (s1.OSTCBTbl k).OSTCBNext = some ((k + 1) % (n + 1)) := by
      intro k hk
      by_cases hkn : k = n
      · subst hkn; rw [hnx, Nat.mod_self]
      · by_cases hkp : k + 1 = n
        · rw [hprev k hkp, hkp, Nat.mod_eq_of_lt (by omega)]
        · rw [hoth k hkn hkp, hring k (by omega), Nat.mod_eq_of_lt (by omega),
            Nat.mod_eq_of_lt (by omega)]
    obtain ⟨s2, h2, ht2, hr2, hc2, hsys2, hcpu2⟩ :=
      ih s1 (n + 1) ht (by omega) (by omega) hr1 (fun _ => by simpa using hc)
    have e : n + 1 + rest.length = n + (rest.length + 1) := by omega
    rw [e] at ht2 hr2 hc2
    refine ⟨s2, ?_, ht2, hr2, hc2, by rw [hsys2, hsys], by rw [hcpu2, hcpu]⟩
    simp only [createAll, h1]
    exact h2

theorem follow_ring (s : State) (n : Nat)
    (hring : ∀ k, k < n → (s.OSTCBTbl k).OSTCBNext = some ((k + 1) % n)) (m k : Nat)
    (hk : k < n) : follow s m k = some ((k + m) % n) := by
  induction m generalizing k with
  | zero => simp [follow, Nat.mod_eq_of_lt hk]
  | succ m ih =>
    simp only [follow, hring k hk]
    rw [ih _ (Nat.mod_lt _ (by omega))]
    congr 1
    rw [Nat.add_mod, Nat.mod_mod, ← Nat.add_mod]
    congr 1; omega

theorem mod_lt_two (a n : Nat) (h : a < 2 * n) : a % n = if a < n then a else a - n := by
  split
  · exact Nat.mod_eq_of_lt (by assumption)
  · rw [Nat.mod_eq_sub_mod (by omega), Nat.mod_eq_of_lt (by omega)]

/-- In a ring of `n` slots, the first `n` steps from `k` meet each slot exactly once. -/
theorem ring_visits_once (n k j : Nat) (hk : k < n) (hj : j < n) :
    ∃! m, m < n ∧ (k + m) % n = j := by
  refine ⟨if k ≤ j then j - k else j + n - k, ⟨?_, ?_⟩, ?_⟩
  · split <;> omega
  · rw [mod_lt_two _ _ (by split <;> omega)]
    split <;> split <;> omega
  · rintro m ⟨hm, hmj⟩
    rw [mod_lt_two _ _ (by omega)] at hmj
    split at hmj <;> split <;> omega

/-- Ring while the slot counter has not wrapped: for every sequence of at most 256
`TaskCreate` calls that fits the table, and every prefix of `n` of them (so after every
intermediate creation as well as the last), the calls return and the link of slot `k` is slot `(k + 1) mod n` for every
`k < n`; following the links from any slot `k < n` returns to `k` after `n` steps, and
within the first `n` steps every slot `j < n` is met exactly once. -/
theorem ring_after_creation (cfg : Config) (args : List (Nat × Nat)) (mem : Mem) (cpu : CPU)
    (n : Nat) (hn : n ≤ args.length) (hmax : args.length ≤ cfg.OS_MAX_TASKS)
    (h256 : args.length ≤ 256) :
    ∃ s, createAll cfg (args.take n) (initState mem cpu) = some s ∧
      (∀ k, k < n → (s.OSTCBTbl k).OSTCBNext = some ((k + 1) % n)) ∧
      (∀ k, k < n → follow s n k = some k ∧
        ∀ j, j < n → ∃! m, m < n ∧ follow s m k = some j) := by
  have hlen : (args.take n).length = n := by simp [List.length_take, hn]
  obtain ⟨s, hs, -, hring, -⟩ := createAll_ring cfg (args.take n) (initState mem cpu) 0
    rfl (by omega) (by omega) (fun k hk => by omega) (fun h => by omega)
  rw [hlen] at hring
  simp only [Nat.zero_add] at hring
  refine ⟨s, hs, hring, fun k hk => ⟨?_, fun j hj => ?_⟩⟩
  · rw [follow_ring s n hring n k hk, Nat.add_mod_right, Nat.mod_eq_of_lt hk]
  · obtain ⟨m, ⟨hm, hmj⟩, huniq⟩ := ring_visits_once n k j hk hj
    refine ⟨m, ⟨hm, by rw [follow_ring s n hring m k hk, hmj]⟩, ?_⟩
    rintro m1 ⟨hm1, hf⟩
    rw [follow_ring s n hring m1 k hk] at hf
    exact huniq m1 ⟨hm1, Option.some.inj hf⟩

/-- Instance of `ring_after_creation`: three creations in a table of four slots, seen after the
second. -/
theorem ring_after_creation_witness :
    (Demo.tasks 3).length ≤ (⟨4, false⟩ : Config).OS_MAX_TASKS ∧
    ∃ s, createAll ⟨4, false⟩ ((Demo.tasks 3).take 2) (initState Demo.mem Demo.cpu) = some s ∧
      (∀ k, k < 2 → (s.OSTCBTbl k).OSTCBNext = some ((k + 1) % 2)) ∧
      (∀ k, k < 2 → follow s 2 k = some k ∧
        ∀ j, j < 2 → ∃! m, m < 2 ∧ follow s m k = some j) :=
  ⟨by decide, ring_after_creation ⟨4, false⟩ (Demo.tasks 3) Demo.mem Demo.cpu 2 (by decide)
    (by decide) (by decide)⟩

section
set_option maxRecDepth 8000

/-- C1, evaluated at the failing input: with `OS_MAX_TASKS = 257`, all 257 calls of
`TaskCreate` return, yet the links are not those of a ring of 257 slots: the 8-bit
`task_num` is 0 again at the 257th call, which makes slot 0 its own successor. -/
theorem ring_fails_with_257_slots :
    (Demo.tasks 257).length ≤ (⟨257, false⟩ : Config).OS_MAX_TASKS ∧
    (createAll ⟨257, false⟩ (Demo.tasks 257) (initState Demo.mem Demo.cpu)).map
      (fun s => (s.OSTCBTbl 0).OSTCBNext) = some (some 0) ∧
    ¬ ∃ s, createAll ⟨257, false⟩ (Demo.tasks 257) (initState Demo.mem Demo.cpu) = some s ∧
      ∀ k, k < 257 → (s.OSTCBTbl k).OSTCBNext = some ((k + 1) % 257) := by
  have h0 : (createAll ⟨257, false⟩ (Demo.tasks 257) (initState Demo.mem Demo.cpu)).map
      (fun s => (s.OSTCBTbl 0).OSTCBNext) = some (some 0) := by decide
  refine ⟨by decide, h0, ?_⟩
  rintro ⟨s, hs, hring⟩
  rw [hs] at h0
  have h1 := hring 0 (by decide)
  simp only [Option.map_some'] at h0
  rw [Option.some.inj h0] at h1
  exact absurd h1 (by decide)

end


/-! ## The restore path -/

/-- Effect of the restore path when neither `OSTCBCur` nor its link is null. `R4`–`R11`
are popped from the stack pointer loaded from the new TCB; in the FPU build the 32 words
of `S0`–`S31` and the FPSCR word are popped first. -/
theorem PendSV_restore_spec (cfg : Config) (s : State) (c n : Nat)
    (hc : s.OSTCBCur = some c) (hn : (s.OSTCBTbl c).OSTCBNext = some n) :
    ∃ s3, PendSV_restore cfg s = some s3 ∧
      s3.OSTCBCur = some n ∧ s3.OSTCBTbl = s.OSTCBTbl ∧ s3.mem = s.mem ∧
      s3.SysTime = s.SysTime ∧ s3.task_num = s.task_num ∧
      (∀ i, 4 ≤ i → i ≤ 11 → s3.cpu.r i = s.mem (add32
        (if cfg.fpu then add32 (add32 (s.OSTCBTbl n).OSTCBStkPtr 128) 4
          else (s.OSTCBTbl n).OSTCBStkPtr) (4 * (i - 4)))) ∧
      (∀ i, ¬ (4 ≤ i ∧ i ≤ 11) → s3.cpu.r i = s.cpu.r i) ∧
      s3.cpu.psp = add32 (if cfg.fpu then add32 (add32 (s.OSTCBTbl n).OSTCBStkPtr 128) 4
          else (s.OSTCBTbl n).OSTCBStkPtr) 32 ∧
      (cfg.fpu = true →
        (∀ i, i < 32 → s3.cpu.s i = s.mem (add32 (s.OSTCBTbl n).OSTCBStkPtr (4 * i))) ∧
        s3.cpu.fpscr = s.mem (add32 (s.OSTCBTbl n).OSTCBStkPtr 128)) ∧
      (cfg.fpu = false → s3.cpu.s = s.cpu.s ∧ s3.cpu.fpscr = s.cpu.fpscr) ∧
      s3.cpu.lr = s.cpu.lr ||| 4 ∧ s3.cpu.primask = false ∧
      s3.cpu.pendsvset = s.cpu.pendsvset ∧ s3.cpu.pendsvPrio = s.cpu.pendsvPrio := by
  simp only [PendSV_restore, hc, hn]
  cases hf : cfg.fpu
  · refine ⟨_, rfl, rfl, rfl, rfl, rfl, rfl, ?_, ?_, ?_, ?_, ?_, ?_, rfl, ?_, ?_⟩
    · intro i h4 h11; simp [h4, h11]
    · intro i hi; simp [hi]
    · simp
    · intro h; cases h
    · intro _; exact ⟨rfl, rfl⟩
    · simp
    · simp
    · simp
  · refine ⟨_, rfl, rfl, rfl, rfl, rfl, rfl, ?_, ?_, ?_, ?_, ?_, ?_, rfl, ?_, ?_⟩
    · intro i h4 h11; simp [h4, h11]
    · intro i hi; simp [hi]
    · simp
    · intro _; exact ⟨fun i hi => by simp [hi], by simp⟩
    · intro h; cases h
    · simp
    · simp
    · simp


theorem TaskCreate_returned_room (cfg : Config) (task stk : Nat) (s s1 : State)
    (h : TaskCreate cfg task stk s = Outcome.returned s1) : s.task_num < cfg.OS_MAX_TASKS := by
  by_contra hge
  have hge2 : s.task_num ≥ cfg.OS_MAX_TASKS := by omega
  simp [TaskCreate, hge2] at h

/-- C4: let `TaskCreate(task, stk)` return in state `s1`, filling slot `j`. In every later
state `s2` in which the handler is about to switch in slot `j` (the link of the current
TCB is `j`) and the task has not run, that is the recorded stack pointer of slot `j` and
the words of its frame are as `TaskCreate` left them, the restore path of
`PendSV_Handler` returns, makes slot `j` current, loads R4..R11 with the values written
for R4..R11, and leaves PSP at the R0 word, 7 words below `stk`, so that the 8 words
from PSP upward are R0 = 0, R1, R2, R3, R12, LR = 0xFFFFFFFE, PC = task,
xPSR = 0x01000000. In the FPU build S0..S31 take the values written for them and FPSCR
is 0x02000000. -/
theorem first_restore_enters_task (cfg : Config) (s s1 s2 : State) (task stk c : Nat)
    (htask : task < 4294967296) (hstk : stk < 4294967296)
    (hcreate : TaskCreate cfg task stk s = Outcome.returned s1)
    (hcur : s2.OSTCBCur = some c)
    (hnext : (s2.OSTCBTbl c).OSTCBNext = some s.task_num)
    (hsp : (s2.OSTCBTbl s.task_num).OSTCBStkPtr = (s1.OSTCBTbl s.task_num).OSTCBStkPtr)
    (hmem : ∀ i, i < (if cfg.fpu then 49 else 16) →
      s2.mem (sub32 stk (4 * i)) = s1.mem (sub32 stk (4 * i))) :
    ∃ s3, PendSV_restore cfg s2 = some s3 ∧
      s3.OSTCBCur = some s.task_num ∧
      s3.cpu.r 4 = 0x04040404 ∧ s3.cpu.r 5 = 0x05050505 ∧
      s3.cpu.r 6 = 0x06060606 ∧ s3.cpu.r 7 = 0x07070707 ∧
      s3.cpu.r 8 = 0x08080808 ∧ s3.cpu.r 9 = 0x09090909 ∧
      s3.cpu.r 10 = 0x10101010 ∧ s3.cpu.r 11 = 0x11111111 ∧
      s3.cpu.psp = sub32 stk 28 ∧
      s3.mem s3.cpu.psp = 0 ∧
      s3.mem (add32 s3.cpu.psp 4) = 0x01010101 ∧
      s3.mem (add32 s3.cpu.psp 8) = 0x02020202 ∧
      s3.mem (add32 s3.cpu.psp 12) = 0x03030303 ∧
      s3.mem (add32 s3.cpu.psp 16) = 0x12121212 ∧
      s3.mem (add32 s3.cpu.psp 20) = 0xFFFFFFFE ∧
      s3.mem (add32 s3.cpu.psp 24) = task ∧
      s3.mem (add32 s3.cpu.psp 28) = 0x01000000 ∧
      (cfg.fpu = true → s3.cpu.fpscr = 0x02000000 ∧
        ∀ i, i < 32 → s3.cpu.s i = fpuFrame.getD (32 - i) 0) := by
  have hroom := TaskCreate_returned_room cfg task stk s s1 hcreate
  obtain ⟨s1b, h1, hw, hr, hsp1, -, -⟩ := TaskCreate_int_words cfg s task stk hroom htask hstk
  have hs : s1b = s1 := by rw [hcreate] at h1; injection h1 with h; exact h.symm
  subst hs
  obtain ⟨s3, h3, hc3, -, hm3, -, -, hr3, -, hpsp3, hfp3, -⟩ :=
    PendSV_restore_spec cfg s2 c s.task_num hcur hnext
  rw [hsp, hsp1, frameWords_length] at hr3 hpsp3 hfp3
  rw [frameWords_length] at hr
  -- the address from which R4 is popped is the R4 word in both builds
  have hbase : (if cfg.fpu then add32 (add32 (sub32 stk (4 * if cfg.fpu then 48 else 15)) 128) 4
      else sub32 stk (4 * if cfg.fpu then 48 else 15)) = sub32 stk 60 := by
    cases hf : cfg.fpu
    · simp
    · simp only [if_true]; unfold add32 sub32; omega
  rw [hbase] at hr3 hpsp3
  have hpsp : s3.cpu.psp = sub32 stk 28 := by rw [hpsp3]; unfold add32 sub32; omega
  -- words of the frame as seen in `s2`
  have hword : ∀ d, d < 16 → s2.mem (sub32 stk (4 * d)) = s1b.mem (sub32 stk (4 * d)) := by
    intro d hd; exact hmem d (by split <;> omega)
  have hreg : ∀ i, 4 ≤ i → i ≤ 11 → s3.cpu.r i = s1b.mem (sub32 stk (4 * (19 - i))) := by
    intro i h4 h11
    have e : add32 (sub32 stk 60) (4 * (i - 4)) = sub32 stk (4 * (19 - i)) := by
      unfold add32 sub32; omega
    rw [hr3 i h4 h11, e, hword (19 - i) (by omega)]
  have hstack : ∀ d, d < 8 → s3.mem (add32 s3.cpu.psp (4 * d)) = s1b.mem (sub32 stk (4 * (7 - d))) := by
    intro d hd
    have e : add32 (sub32 stk 28) (4 * d) = sub32 stk (4 * (7 - d)) := by
      unfold add32 sub32; omega
    rw [hm3, hpsp, e, hword (7 - d) (by omega)]
  have hstk0 : sub32 stk 0 = stk := by unfold sub32; omega
  obtain ⟨a0, a1, a2, a3, a4, a5, a6, a7, a8, a9, a10, a11, a12, a13, a14, a15⟩ := hw
  refine ⟨s3, h3, hc3, ?_, ?_, ?_, ?_, ?_, ?_, ?_, ?_, hpsp, ?_, ?_, ?_, ?_, ?_, ?_, ?_, ?_, ?_⟩
  · rw [hreg 4 (by omega) (by omega)]; exact a15
  · rw [hreg 5 (by omega) (by omega)]; exact a14
  · rw [hreg 6 (by omega) (by omega)]; exact a13
  · rw [hreg 7 (by omega) (by omega)]; exact a12
  · rw [hreg 8 (by omega) (by omega)]; exact a11
  · rw [hreg 9 (by omega) (by omega)]; exact a10
  · rw [hreg 10 (by omega) (by omega)]; exact a9
  · rw [hreg 11 (by omega) (by omega)]; exact a8
  · have := hstack 0 (by omega)
    have e : add32 s3.cpu.psp (4 * 0) = s3.cpu.psp := by rw [hpsp]; unfold add32 sub32; omega
    rw [e] at this; rw [this]; exact a7
  · rw [hstack 1 (by omega)]; exact a6
  · rw [hstack 2 (by omega)]; exact a5
  · rw [hstack 3 (by omega)]; exact a4
  · rw [hstack 4 (by omega)]; exact a3
  · rw [hstack 5 (by omega)]; exact a2
  · rw [hstack 6 (by omega)]; exact a1
  · have := hstack 7 (by omega)
    rw [this]; simp only [Nat.sub_self, Nat.mul_zero, hstk0]; exact a0
  · intro hf
    obtain ⟨hs3, hfpscr⟩ := hfp3 hf
    simp only [hf, if_true] at hr hmem hs3 hfpscr
    have hfw : ∀ d, d < 48 → s2.mem (sub32 stk (4 * (d + 1))) = (frameWords cfg task).getD d 0 := by
      intro d hd
      rw [hmem (d + 1) (by omega), hr d hd]
    refine ⟨?_, ?_⟩
    · rw [hfpscr]
      have := hfw 15 (by omega)
      rw [frameWords_getD_fpu cfg task 0 hf] at this
      have e : add32 (sub32 stk (4 * 48)) 128 = sub32 stk (4 * (15 + 1)) := by
        unfold add32 sub32; omega
      rw [e, this]; simp [fpuFrame]
    · intro i hi
      rw [hs3 i hi]
      have := hfw (15 + (32 - i)) (by omega)
      rw [frameWords_getD_fpu cfg task (32 - i) hf] at this
      have e : add32 (sub32 stk (4 * 48)) (4 * i) = sub32 stk (4 * (15 + (32 - i) + 1)) := by
        unfold add32 sub32; omega
      rw [e, this]


/-- Witness for C4: the only task of an FPU build, switched in right after its creation. -/
theorem first_restore_enters_task_witness :
    ∃ s3, PendSV_restore ⟨4, true⟩ (Demo.created ⟨4, true⟩ 1) = some s3 ∧
      s3.OSTCBCur = some 0 ∧ s3.cpu.r 4 = 0x04040404 ∧ s3.cpu.r 11 = 0x11111111 ∧
      s3.cpu.psp = sub32 0x200003FC 28 ∧
      s3.mem (add32 s3.cpu.psp 24) = 0x08000101 ∧
      s3.mem (add32 s3.cpu.psp 28) = 0x01000000 := by
  obtain ⟨s3, h3, hc, r4, -, -, -, -, -, -, r11, hpsp, -, -, -, -, -, -, hpc, hxpsr, -⟩ :=
    first_restore_enters_task ⟨4, true⟩ (initState Demo.mem Demo.cpu)
      (Demo.created ⟨4, true⟩ 1) (Demo.created ⟨4, true⟩ 1) 0x08000101 0x200003FC 0
      (by decide) (by decide) rfl rfl rfl rfl (fun _ _ => rfl)
  exact ⟨s3, h3, hc, r4, r11, hpsp, hpc, hxpsr⟩


/-! ## The save path -/

theorem PendSV_save_spec (cfg : Config) (s : State) (c : Nat)
    (hp0 : s.cpu.psp ≠ 0) (hp : s.cpu.psp < 4294967296) (hc : s.OSTCBCur = some c) :
    ∃ s1, PendSV_save cfg s = some s1 ∧
      s1.OSTCBCur = some c ∧
      (s1.OSTCBTbl c).OSTCBStkPtr = sub32 s.cpu.psp (if cfg.fpu then 164 else 32) ∧
      (∀ k, (s1.OSTCBTbl k).OSTCBNext = (s.OSTCBTbl k).OSTCBNext) ∧
      (∀ k, (s1.OSTCBTbl k).OSTCBWakeTime = (s.OSTCBTbl k).OSTCBWakeTime) ∧
      (∀ k, k ≠ c → s1.OSTCBTbl k = s.OSTCBTbl k) ∧
      (∀ i, i < 8 → s1.mem (add32 (sub32 s.cpu.psp 32) (4 * i)) = s.cpu.r (4 + i)) ∧
      (cfg.fpu = true → s1.mem (sub32 s.cpu.psp 36) = s.cpu.fpscr ∧
        ∀ i, i < 32 → s1.mem (add32 (sub32 s.cpu.psp 164) (4 * i)) = s.cpu.s i) ∧
      (∀ x, (∀ i, i < (if cfg.fpu then 41 else 8) → x ≠ sub32 s.cpu.psp (4 * (i + 1))) →
        s1.mem x = s.mem x) ∧
      s1.cpu = { s.cpu with primask := true } ∧
      s1.SysTime = s.SysTime ∧ s1.task_num = s.task_num := by
  simp only [PendSV_save, hp0, hc, if_false]
  cases hf : cfg.fpu
  · refine ⟨_, rfl, rfl, ?_, ?_, ?_, ?_, ?_, ?_, ?_, rfl, rfl, rfl⟩
    · simp [updTCB]
    · intro k; simp only [updTCB]; split <;> simp_all
    · intro k; simp only [updTCB]; split <;> simp_all
    · intro k hk; simp [updTCB, hk]
    · intro i hi
      simp only [Bool.false_eq_true, if_false]
      exact storeRegs_read _ _ _ _ _ hi (by omega)
    · intro h; cases h
    · intro x hx
      simp only [Bool.false_eq_true, if_false] at hx ⊢
      apply storeRegs_other
      intro i hi
      have := hx (7 - i) (by omega)
      unfold add32 sub32 at *; omega
  · refine ⟨_, rfl, rfl, ?_, ?_, ?_, ?_, ?_, ?_, ?_, rfl, rfl, rfl⟩
    · simp only [updTCB, if_true]
      unfold sub32; omega
    · intro k; simp only [updTCB]; split <;> simp_all
    · intro k; simp only [updTCB]; split <;> simp_all
    · intro k hk; simp [updTCB, hk]
    · intro i hi
      simp only [if_true]
      rw [storeRegs_other, write_other, storeRegs_read _ _ _ _ _ hi (by omega)]
      · unfold add32 sub32; omega
      · intro j hj; unfold add32 sub32; omega
    · intro _
      simp only [if_true]
      refine ⟨?_, fun i hi => ?_⟩
      · rw [storeRegs_other]
        · have e : sub32 s.cpu.psp 36 = sub32 (sub32 s.cpu.psp 32) 4 := by unfold sub32; omega
          rw [e]; exact write_same _ _ _
        · intro j hj; unfold add32 sub32; omega
      · have e : sub32 s.cpu.psp 164 = sub32 (sub32 (sub32 s.cpu.psp 32) 4) 128 := by
          unfold sub32; omega
        rw [e]; exact storeRegs_read _ _ _ _ _ hi (by omega)
    · intro x hx
      simp only [if_true] at hx ⊢
      rw [storeRegs_other, write_other, storeRegs_other]
      · intro i hi
        have := hx (7 - i) (by omega)
        unfold add32 sub32 at *; omega
      · have := hx 8 (by omega)
        unfold sub32 at *; omega
      · intro i hi
        have := hx (40 - i) (by omega)
        unfold add32 sub32 at *; omega


/-- C5: build without FPU. When the save path of `PendSV_Handler` switches out the current
task `c` with process stack pointer `p ≠ 0`, it returns (the run of the handler going on
with the restore path) and records `OSTCBStkPtr = p - 8` words. If, at the start of a later restore path that switches in `c` (the link of the
then-current TCB is `c`), the recorded stack pointer of `c` and the 8 words between it
and `p` are as the save left them, that restore path returns, R4..R11 have the values
they had at the switch-out, and PSP is `p` again, which is the recorded stack pointer
plus 8 words. -/
theorem save_restore_roundtrip_nofpu (cfg : Config) (s s2 : State) (c c2 : Nat)
    (hfpu : cfg.fpu = false) (hp0 : s.cpu.psp ≠ 0) (hp : s.cpu.psp < 4294967296)
    (hc : s.OSTCBCur = some c) :
    ∃ s1, PendSV_save cfg s = some s1 ∧
      PendSV_Handler cfg s = PendSV_restore cfg s1 ∧
      (s1.OSTCBTbl c).OSTCBStkPtr = sub32 s.cpu.psp 32 ∧
      (s2.OSTCBCur = some c2 → (s2.OSTCBTbl c2).OSTCBNext = some c →
        (s2.OSTCBTbl c).OSTCBStkPtr = (s1.OSTCBTbl c).OSTCBStkPtr →
        (∀ i, i < 8 → s2.mem (add32 (sub32 s.cpu.psp 32) (4 * i))
          = s1.mem (add32 (sub32 s.cpu.psp 32) (4 * i))) →
        ∃ s3, PendSV_restore cfg s2 = some s3 ∧ s3.OSTCBCur = some c ∧
          (∀ i, 4 ≤ i → i ≤ 11 → s3.cpu.r i = s.cpu.r i) ∧
          s3.cpu.psp = s.cpu.psp ∧
          s3.cpu.psp = add32 (s2.OSTCBTbl c).OSTCBStkPtr 32) := by
  obtain ⟨s1, h1, -, hsp, -, -, -, hregs, -, -, -⟩ := PendSV_save_spec cfg s c hp0 hp hc
  simp only [hfpu, Bool.false_eq_true, if_false] at hsp
  refine ⟨s1, h1, by simp only [PendSV_Handler, h1], hsp, ?_⟩
  intro hc2 hn2 hsp2 hmem2
  obtain ⟨s3, h3, hc3, -, -, -, -, hr3, -, hpsp3, -⟩ := PendSV_restore_spec cfg s2 c2 c hc2 hn2
  simp only [hfpu, Bool.false_eq_true, if_false] at hr3 hpsp3
  rw [hsp2, hsp] at hr3 hpsp3
  refine ⟨s3, h3, hc3, ?_, ?_, ?_⟩
  · intro i h4 h11
    rw [hr3 i h4 h11, hmem2 (i - 4) (by omega), hregs (i - 4) (by omega)]
    have e : 4 + (i - 4) = i := by omega
    rw [e]
  · rw [hpsp3]; unfold add32 sub32; omega
  · rw [hpsp3, hsp2, hsp]

/-- Witness for C5: a single task that is switched out and, with nothing touched, switched
in again by the same run of the handler. -/
theorem save_restore_roundtrip_nofpu_witness :
    (Demo.created ⟨4, false⟩ 1).cpu.psp ≠ 0 ∧
    ∃ s3, PendSV_restore ⟨4, false⟩ (Demo.saved ⟨4, false⟩) = some s3 ∧
      s3.OSTCBCur = some 0 ∧
      (∀ i, 4 ≤ i → i ≤ 11 → s3.cpu.r i = (Demo.created ⟨4, false⟩ 1).cpu.r i) ∧
      s3.cpu.psp = (Demo.created ⟨4, false⟩ 1).cpu.psp := by
  obtain ⟨s1, h1, -, -, hrt⟩ := save_restore_roundtrip_nofpu ⟨4, false⟩ (Demo.created ⟨4, false⟩ 1)
    (Demo.saved ⟨4, false⟩) 0 0 rfl (by decide) (by decide) rfl
  have hs : s1 = Demo.saved ⟨4, false⟩ :=
    Option.some.inj (h1.symm.trans (rfl : PendSV_save ⟨4, false⟩ (Demo.created ⟨4, false⟩ 1)
      = some (Demo.saved ⟨4, false⟩)))
  subst hs
  obtain ⟨s3, h3, hc3, hr3, hpsp3, -⟩ := hrt rfl rfl rfl (fun _ _ => rfl)
  exact ⟨by decide, s3, h3, hc3, hr3, hpsp3⟩

/-- C6: FPU build. When the save path of `PendSV_Handler` switches out the current task
`c` with process stack pointer `p ≠ 0`, it returns (the run of the handler going on with
the restore path), stores R4..R11 in the 8 words below
`p`, FPSCR in the word below them and S0..S31 in the 32 words below that (the reverse
of the order in which the restore path pops them), and records `OSTCBStkPtr = p - 41`
words. If, at the start of a later restore path that switches in `c`, the recorded stack
pointer of `c` and the 41 words between it and `p` are as the save left them, that
restore path returns, and R4..R11, S0..S31, FPSCR and PSP have the values they had at
the switch-out. -/
theorem save_restore_roundtrip_fpu (cfg : Config) (s s2 : State) (c c2 : Nat)
    (hfpu : cfg.fpu = true) (hp0 : s.cpu.psp ≠ 0) (hp : s.cpu.psp < 4294967296)
    (hc : s.OSTCBCur = some c) :
    ∃ s1, PendSV_save cfg s = some s1 ∧
      PendSV_Handler cfg s = PendSV_restore cfg s1 ∧
      (s1.OSTCBTbl c).OSTCBStkPtr = sub32 s.cpu.psp 164 ∧
      (∀ i, i < 8 → s1.mem (sub32 s.cpu.psp (4 * (8 - i))) = s.cpu.r (4 + i)) ∧
      s1.mem (sub32 s.cpu.psp (4 * 9)) = s.cpu.fpscr ∧
      (∀ i, i < 32 → s1.mem (sub32 s.cpu.psp (4 * (41 - i))) = s.cpu.s i) ∧
      (s2.OSTCBCur = some c2 → (s2.OSTCBTbl c2).OSTCBNext = some c →
        (s2.OSTCBTbl c).OSTCBStkPtr = (s1.OSTCBTbl c).OSTCBStkPtr →
        (∀ i, i < 41 → s2.mem (add32 (sub32 s.cpu.psp 164) (4 * i))
          = s1.mem (add32 (sub32 s.cpu.psp 164) (4 * i))) →
        ∃ s3, PendSV_restore cfg s2 = some s3 ∧ s3.OSTCBCur = some c ∧
          (∀ i, 4 ≤ i → i ≤ 11 → s3.cpu.r i = s.cpu.r i) ∧
          (∀ i, i < 32 → s3.cpu.s i = s.cpu.s i) ∧
          s3.cpu.fpscr = s.cpu.fpscr ∧
          s3.cpu.psp = s.cpu.psp) := by
  obtain ⟨s1, h1, -, hsp, -, -, -, hregs, hfp, -, -⟩ := PendSV_save_spec cfg s c hp0 hp hc
  obtain ⟨hfpscr, hsregs⟩ := hfp hfpu
  simp only [hfpu, if_true] at hsp
  refine ⟨s1, h1, by simp only [PendSV_Handler, h1], hsp, ?_, ?_, ?_, ?_⟩
  · intro i hi
    have e : sub32 s.cpu.psp (4 * (8 - i)) = add32 (sub32 s.cpu.psp 32) (4 * i) := by
      unfold add32 sub32; omega
    rw [e]; exact hregs i hi
  · exact hfpscr
  · intro i hi
    have e : sub32 s.cpu.psp (4 * (41 - i)) = add32 (sub32 s.cpu.psp 164) (4 * i) := by
      unfold add32 sub32; omega
    rw [e]; exact hsregs i hi
  intro hc2 hn2 hsp2 hmem2
  obtain ⟨s3, h3, hc3, -, -, -, -, hr3, -, hpsp3, hfp3, -⟩ :=
    PendSV_restore_spec cfg s2 c2 c hc2 hn2
  obtain ⟨hs3, hfpscr3⟩ := hfp3 hfpu
  simp only [hfpu, if_true] at hr3 hpsp3
  rw [hsp2, hsp] at hr3 hpsp3 hs3 hfpscr3
  refine ⟨s3, h3, hc3, ?_, ?_, ?_, ?_⟩
  · intro i h4 h11
    have e : add32 (add32 (add32 (sub32 s.cpu.psp 164) 128) 4) (4 * (i - 4))
        = add32 (sub32 s.cpu.psp 164) (4 * (33 + (i - 4))) := by unfold add32 sub32; omega
    have e2 : add32 (sub32 s.cpu.psp 164) (4 * (33 + (i - 4)))
        = add32 (sub32 s.cpu.psp 32) (4 * (i - 4)) := by unfold add32 sub32; omega
    rw [hr3 i h4 h11, e, hmem2 (33 + (i - 4)) (by omega), e2, hregs (i - 4) (by omega)]
    have e3 : 4 + (i - 4) = i := by omega
    rw [e3]
  · intro i hi
    rw [hs3 i hi, hmem2 i (by omega), hsregs i hi]
  · have e : add32 (sub32 s.cpu.psp 164) 128 = add32 (sub32 s.cpu.psp 164) (4 * 32) := rfl
    have e2 : add32 (sub32 s.cpu.psp 164) (4 * 32) = sub32 s.cpu.psp 36 := by
      unfold add32 sub32; omega
    rw [hfpscr3, e, hmem2 32 (by omega), e2, hfpscr]
  · rw [hpsp3]; unfold add32 sub32; omega

/-- Witness for C6: a single task of an FPU build that is switched out and, with nothing
touched, switched in again by the same run of the handler. -/
theorem save_restore_roundtrip_fpu_witness :
    (Demo.created ⟨4, true⟩ 1).cpu.psp ≠ 0 ∧
    ∃ s3, PendSV_restore ⟨4, true⟩ (Demo.saved ⟨4, true⟩) = some s3 ∧
      s3.OSTCBCur = some 0 ∧
      (∀ i, 4 ≤ i → i ≤ 11 → s3.cpu.r i = (Demo.created ⟨4, true⟩ 1).cpu.r i) ∧
      (∀ i, i < 32 → s3.cpu.s i = (Demo.created ⟨4, true⟩ 1).cpu.s i) ∧
      s3.cpu.fpscr = (Demo.created ⟨4, true⟩ 1).cpu.fpscr ∧
      s3.cpu.psp = (Demo.created ⟨4, true⟩ 1).cpu.psp := by
  obtain ⟨s1, h1, -, -, -, -, -, hrt⟩ := save_restore_roundtrip_fpu ⟨4, true⟩
    (Demo.created ⟨4, true⟩ 1) (Demo.saved ⟨4, true⟩) 0 0 rfl (by decide) (by decide) rfl
  have hs : s1 = Demo.saved ⟨4, true⟩ :=
    Option.some.inj (h1.symm.trans (rfl : PendSV_save ⟨4, true⟩ (Demo.created ⟨4, true⟩ 1)
      = some (Demo.saved ⟨4, true⟩)))
  subst hs
  obtain ⟨s3, h3, hc3, hr3, hs3, hf3, hpsp3⟩ := hrt rfl rfl rfl (fun _ _ => rfl)
  exact ⟨by decide, s3, h3, hc3, hr3, hs3, hf3, hpsp3⟩


/-! ## Capacity -/

/-- C7: for every `OS_MAX_TASKS ≤ 255`, a call of `TaskCreate` made after `OS_MAX_TASKS`
creations from the initial state (which all return) does not return: it enters
`while(1);` in exactly the state it was called in, so the TCB table, `task_num`,
`OSTCBCur` and the whole memory, the supplied stack included, are unchanged. A call made
after fewer than `OS_MAX_TASKS` creations returns. -/
theorem over_capacity_spins (cfg : Config) (args : List (Nat × Nat)) (mem : Mem) (cpu : CPU)
    (task stk : Nat) (h255 : cfg.OS_MAX_TASKS ≤ 255) :
    (args.length = cfg.OS_MAX_TASKS →
      ∃ s, createAll cfg args (initState mem cpu) = some s ∧
        TaskCreate cfg task stk s = Outcome.spins s) ∧
    (args.length < cfg.OS_MAX_TASKS →
      ∃ s s1, createAll cfg args (initState mem cpu) = some s ∧
        TaskCreate cfg task stk s = Outcome.returned s1) := by
  constructor
  · intro hlen
    obtain ⟨s, hs, htn, -⟩ := createAll_ring cfg args (initState mem cpu) 0
      rfl (by omega) (by omega) (fun k hk => by omega) (fun h => by omega)
    rw [Nat.zero_add, Nat.mod_eq_of_lt (by omega)] at htn
    refine ⟨s, hs, ?_⟩
    have : s.task_num ≥ cfg.OS_MAX_TASKS := by omega
    simp [TaskCreate, this]
  · intro hlen
    obtain ⟨s, hs, htn, -⟩ := createAll_ring cfg args (initState mem cpu) 0
      rfl (by omega) (by omega) (fun k hk => by omega) (fun h => by omega)
    rw [Nat.zero_add, Nat.mod_eq_of_lt (by omega)] at htn
    obtain ⟨s1, h1, -⟩ := TaskCreate_spec cfg task stk s (by omega)
    exact ⟨s, s1, hs, h1⟩

/-- Witness for C7: a table of four slots; the fifth creation spins, the fourth returns. -/
theorem over_capacity_spins_witness :
    (∃ s, createAll ⟨4, false⟩ (Demo.tasks 4) (initState Demo.mem Demo.cpu) = some s ∧
        TaskCreate ⟨4, false⟩ 0x08000141 0x20000BFC s = Outcome.spins s) ∧
    (∃ s s1, createAll ⟨4, false⟩ (Demo.tasks 3) (initState Demo.mem Demo.cpu) = some s ∧
        TaskCreate ⟨4, false⟩ 0x08000141 0x20000BFC s = Outcome.returned s1) :=
  ⟨(over_capacity_spins ⟨4, false⟩ (Demo.tasks 4) Demo.mem Demo.cpu 0x08000141 0x20000BFC
      (by decide)).1 (by decide),
   (over_capacity_spins ⟨4, false⟩ (Demo.tasks 3) Demo.mem Demo.cpu 0x08000141 0x20000BFC
      (by decide)).2 (by decide)⟩

/-! ## The first switch -/

theorem PendSV_save_psp_zero (cfg : Config) (s : State) (hp : s.cpu.psp = 0) :
    PendSV_save cfg s = some { s with cpu := { s.cpu with primask := true } } := by
  simp [PendSV_save, hp]

/-- C8: in every state with `PSP = 0`, a run of `PendSV_Handler` is the restore path alone
(after `CPSID I`): whenever it returns, the memory and the whole TCB table (so every
`OSTCBStkPtr`) are unchanged, as are `SysTime` and `task_num`; and when `OSTCBCur` and
its link are not null it does return, with `OSTCBCur` advanced to that link and the
registers popped from the stack pointer recorded in the new current TCB (S0..S31 and
FPSCR first in the FPU build, then R4..R11), PSP being left just above the popped
words. -/
theorem first_switch_skip (cfg : Config) (s : State) (hp : s.cpu.psp = 0) :
    PendSV_Handler cfg s = PendSV_restore cfg { s with cpu := { s.cpu with primask := true } } ∧
    (∀ s1, PendSV_Handler cfg s = some s1 →
      s1.mem = s.mem ∧ s1.OSTCBTbl = s.OSTCBTbl ∧ s1.SysTime = s.SysTime ∧
      s1.task_num = s.task_num) ∧
    (∀ c n, s.OSTCBCur = some c → (s.OSTCBTbl c).OSTCBNext = some n →
      ∃ s1, PendSV_Handler cfg s = some s1 ∧ s1.OSTCBCur = some n ∧
        (∀ i, 4 ≤ i → i ≤ 11 → s1.cpu.r i = s.mem (add32
          (if cfg.fpu then add32 (add32 (s.OSTCBTbl n).OSTCBStkPtr 128) 4
            else (s.OSTCBTbl n).OSTCBStkPtr) (4 * (i - 4)))) ∧
        s1.cpu.psp = add32 (if cfg.fpu then add32 (add32 (s.OSTCBTbl n).OSTCBStkPtr 128) 4
            else (s.OSTCBTbl n).OSTCBStkPtr) 32 ∧
        (cfg.fpu = true →
          (∀ i, i < 32 → s1.cpu.s i = s.mem (add32 (s.OSTCBTbl n).OSTCBStkPtr (4 * i))) ∧
          s1.cpu.fpscr = s.mem (add32 (s.OSTCBTbl n).OSTCBStkPtr 128))) := by
  have hH : PendSV_Handler cfg s
      = PendSV_restore cfg { s with cpu := { s.cpu with primask := true } } := by
    simp only [PendSV_Handler, PendSV_save_psp_zero cfg s hp]
  refine ⟨hH, ?_, ?_⟩
  · intro s1 h1
    rw [hH] at h1
    cases hc : s.OSTCBCur with
    | none => simp [PendSV_restore, hc] at h1
    | some c =>
      cases hn : (s.OSTCBTbl c).OSTCBNext with
      | none => simp [PendSV_restore, hc, hn] at h1
      | some n =>
        obtain ⟨s3, h3, -, ht, hm, hsys, htn, -⟩ :=
          PendSV_restore_spec cfg { s with cpu := { s.cpu with primask := true } } c n hc hn
        rw [h3] at h1
        have := Option.some.inj h1
        subst this
        exact ⟨hm, ht, hsys, htn⟩
  · intro c n hc hn
    obtain ⟨s3, h3, hc3, -, -, -, -, hr3, -, hpsp3, hfp3, -⟩ :=
      PendSV_restore_spec cfg { s with cpu := { s.cpu with primask := true } } c n hc hn
    exact ⟨s3, by rw [hH]; exact h3, hc3, hr3, hpsp3, hfp3⟩

/-- Witness for C8: the first switch after `OSStart` with two tasks created. -/
theorem first_switch_skip_witness :
    (OSStart (Demo.created ⟨4, false⟩ 2)).cpu.psp = 0 ∧
    ∃ s1, PendSV_Handler ⟨4, false⟩ (OSStart (Demo.created ⟨4, false⟩ 2)) = some s1 ∧
      s1.OSTCBCur = some 0 ∧
      s1.mem = (OSStart (Demo.created ⟨4, false⟩ 2)).mem ∧
      s1.OSTCBTbl = (OSStart (Demo.created ⟨4, false⟩ 2)).OSTCBTbl := by
  obtain ⟨-, hframe, hrun⟩ := first_switch_skip ⟨4, false⟩ (OSStart (Demo.created ⟨4, false⟩ 2)) rfl
  obtain ⟨s1, h1, hc1, -⟩ := hrun 1 0 rfl rfl
  obtain ⟨hm, ht, -⟩ := hframe s1 h1
  exact ⟨rfl, s1, h1, hc1, hm, ht⟩


/-! ## Counting in a cyclic sequence -/

theorem count_range_mod (N j n : Nat) (hn : n ≤ N) :
    ((List.range n).map (fun i => some (i % N))).count (some j) = if j < n then 1 else 0 := by
  induction n with
  | zero => simp
  | succ n ih =>
    rw [List.range_succ, List.map_append, List.count_append, ih (by omega)]
    simp only [List.map_cons, List.map_nil, List.count_singleton, Nat.mod_eq_of_lt (show n < N by omega)]
    by_cases h1 : j < n
    · have h3 : ¬ n = j := by omega
      have h4 : j < n + 1 := by omega
      simp [h1, h3, h4]
    · by_cases h2 : n = j
      · subst h2; simp
      · have : ¬ j < n + 1 := by omega
        simp [h1, h2, this]

theorem count_window_one (N j w : Nat) (hj : j < N) :
    ((List.range' w N).map (fun i => some (i % N))).count (some j) = 1 := by
  induction w with
  | zero =>
    rw [← List.range_eq_range', count_range_mod N j N (le_refl _)]
    simp [hj]
  | succ w ih =>
    have h1 : ((List.range' w (N + 1)).map (fun i => some (i % N))).count (some j)
        = (if w % N = j then 1 else 0)
          + ((List.range' (w + 1) N).map (fun i => some (i % N))).count (some j) := by
      rw [List.range'_succ, List.map_cons, List.count_cons]
      simp only [beq_iff_eq, Option.some.injEq]
      omega
    have h2 : ((List.range' w (N + 1)).map (fun i => some (i % N))).count (some j)
        = ((List.range' w N).map (fun i => some (i % N))).count (some j)
          + (if w % N = j then 1 else 0) := by
      rw [List.range'_concat, List.map_append, List.count_append]
      simp only [List.map_cons, List.map_nil, List.count_singleton, beq_iff_eq,
        Option.some.injEq, Nat.one_mul, Nat.add_mod_right]
    omega

theorem count_window (N j : Nat) (hj : j < N) (k w : Nat) :
    ((List.range' w (k * N)).map (fun i => some (i % N))).count (some j) = k := by
  induction k generalizing w with
  | zero => simp
  | succ k ih =>
    have e : (k + 1) * N = N + k * N := by rw [Nat.succ_mul]; omega
    rw [e, ← List.range'_append w (k * N) N 1, List.map_append, List.count_append, ih w]
    rw [Nat.one_mul, count_window_one N j _ hj]

theorem window_of_cycle (P N w k : Nat) (h : w + k * N ≤ P) :
    (((List.range P).map (fun i => some (i % N))).drop w).take (k * N)
      = (List.range' w (k * N)).map (fun i => some (i % N)) := by
  apply List.ext_getElem
  · simp; omega
  · intro i h1 h2
    simp


/-! ## The cursor along a sequence of events -/

theorem PendSV_save_links (cfg : Config) (s : State) (c : Nat) (hc : s.OSTCBCur = some c) :
    ∃ s1, PendSV_save cfg s = some s1 ∧ s1.OSTCBCur = some c ∧
      ∀ k, (s1.OSTCBTbl k).OSTCBNext = (s.OSTCBTbl k).OSTCBNext := by
  by_cases hp : s.cpu.psp = 0
  · exact ⟨_, PendSV_save_psp_zero cfg s hp, hc, fun _ => rfl⟩
  · simp only [PendSV_save, hp, hc, if_false]
    refine ⟨_, rfl, rfl, ?_⟩
    intro k; simp only [updTCB]; split <;> simp_all

theorem PendSV_Handler_cursor (cfg : Config) (s : State) (c n : Nat)
    (hc : s.OSTCBCur = some c) (hn : (s.OSTCBTbl c).OSTCBNext = some n) :
    ∃ s1, PendSV_Handler cfg s = some s1 ∧ s1.OSTCBCur = some n ∧
      ∀ k, (s1.OSTCBTbl k).OSTCBNext = (s.OSTCBTbl k).OSTCBNext := by
  obtain ⟨s1, h1, hc1, hl1⟩ := PendSV_save_links cfg s c hc
  obtain ⟨s3, h3, hc3, ht3, -⟩ := PendSV_restore_spec cfg s1 c n hc1 (by rw [hl1, hn])
  refine ⟨s3, by simp only [PendSV_Handler, h1, h3], hc3, fun k => by rw [ht3, hl1]⟩

theorem step_cursor (cfg : Config) (e : Event) (s : State) (c n : Nat)
    (hc : s.OSTCBCur = some c) (hn : (s.OSTCBTbl c).OSTCBNext = some n) :
    ∃ s1, step cfg e s = some s1 ∧
      (∀ k, (s1.OSTCBTbl k).OSTCBNext = (s.OSTCBTbl k).OSTCBNext) ∧
      s1.OSTCBCur = some (match e with | Event.pendsv => n | _ => c) := by
  cases e with
  | task cpu mem => exact ⟨_, rfl, fun _ => rfl, hc⟩
  | delay ticks =>
    simp only [step, OSTimeDly_arm, hc]
    refine ⟨_, rfl, ?_, rfl⟩
    intro k; simp only [updTCB]; split <;> simp_all
  | tick => exact ⟨_, rfl, fun _ => rfl, hc⟩
  | pendsv =>
    obtain ⟨s1, h1, hc1, hl1⟩ := PendSV_Handler_cursor cfg s c n hc hn
    exact ⟨s1, h1, hl1, hc1⟩

theorem run_ring (cfg : Config) (N : Nat) (events : List Event) (s : State) (c : Nat)
    (hring : ∀ k, k < N → (s.OSTCBTbl k).OSTCBNext = some ((k + 1) % N))
    (hc : c < N) (hcur : s.OSTCBCur = some c) :
    ∃ s1, run cfg events s = some s1 ∧
      switchLog cfg events s
        = (List.range (switches events)).map (fun i => some ((c + 1 + i) % N)) := by
  induction events generalizing s c with
  | nil => exact ⟨s, rfl, rfl⟩
  | cons e es ih =>
    obtain ⟨s1, h1, hl1, hc1⟩ := step_cursor cfg e s c ((c + 1) % N) hcur (hring c hc)
    have hring1 : ∀ k, k < N → (s1.OSTCBTbl k).OSTCBNext = some ((k + 1) % N) :=
      fun k hk => by rw [hl1, hring k hk]
    cases e with
    | pendsv =>
      obtain ⟨s2, h2, hlog⟩ := ih s1 ((c + 1) % N) hring1 (Nat.mod_lt _ (by omega)) hc1
      refine ⟨s2, by simp only [run, h1, h2], ?_⟩
      simp only [switchLog, h1, switches, hlog, hc1]
      rw [List.range_succ_eq_map, List.map_cons, List.map_map]
      congr 1
      apply List.map_congr_left
      intro i _
      simp only [Function.comp, Nat.succ_eq_add_one]
      rw [Nat.add_assoc ((c + 1) % N), Nat.mod_add_mod]
      congr 2; omega
    | task cpu mem =>
      obtain ⟨s2, h2, hlog⟩ := ih s1 c hring1 hc hc1
      exact ⟨s2, by simp only [run, h1, h2], by simp only [switchLog, h1, switches, hlog]⟩
    | delay ticks =>
      obtain ⟨s2, h2, hlog⟩ := ih s1 c hring1 hc hc1
      exact ⟨s2, by simp only [run, h1, h2], by simp only [switchLog, h1, switches, hlog]⟩
    | tick =>
      obtain ⟨s2, h2, hlog⟩ := ih s1 c hring1 hc hc1
      exact ⟨s2, by simp only [run, h1, h2], by simp only [switchLog, h1, switches, hlog]⟩


/-- Round robin while the slot counter has not wrapped: let `N` creations with
`1 ≤ N ≤ 256` fit the table. Every run of
`PendSV_Handler` with a non-null cursor and link returns and moves the cursor to that
link. After the creations and `OSStart`, along every sequence of events (handler runs
interleaved with thread-mode execution, delay stores and ticks) nothing faults, the
`i`-th context switch switches in slot `i mod N` (slot 0, slot 1, ..., slot N-1, slot 0,
...), and in every window of `k * N` consecutive switches each slot `j < N` is switched
in exactly `k` times. -/
theorem round_robin (cfg : Config) (args : List (Nat × Nat)) (mem : Mem) (cpu : CPU)
    (h1 : 1 ≤ args.length) (hmax : args.length ≤ cfg.OS_MAX_TASKS)
    (h256 : args.length ≤ 256) :
    (∀ s c n, s.OSTCBCur = some c → (s.OSTCBTbl c).OSTCBNext = some n →
      ∃ s1, PendSV_Handler cfg s = some s1 ∧ s1.OSTCBCur = some n) ∧
    ∃ s0, createAll cfg args (initState mem cpu) = some s0 ∧
      ∀ events : List Event,
        (∃ s, run cfg events (OSStart s0) = some s) ∧
        switchLog cfg events (OSStart s0)
          = (List.range (switches events)).map (fun i => some (i % args.length)) ∧
        ∀ w k j, j < args.length → w + k * args.length ≤ switches events →
          (((switchLog cfg events (OSStart s0)).drop w).take (k * args.length)).count (some j)
            = k := by
  refine ⟨fun s c n hc hn => ?_, ?_⟩
  · obtain ⟨s1, h1, hc1, -⟩ := PendSV_Handler_cursor cfg s c n hc hn
    exact ⟨s1, h1, hc1⟩
  obtain ⟨s0, hs0, -, hring, hcur, -⟩ := createAll_ring cfg args (initState mem cpu) 0
    rfl (by omega) (by omega) (fun k hk => by omega) (fun h => by omega)
  simp only [Nat.zero_add] at hring hcur
  refine ⟨s0, hs0, fun events => ?_⟩
  obtain ⟨s, hs, hlog⟩ := run_ring cfg args.length events (OSStart s0) (args.length - 1)
    hring (by omega) (hcur (by omega))
  have hlog2 : switchLog cfg events (OSStart s0)
      = (List.range (switches events)).map (fun i => some (i % args.length)) := by
    rw [hlog]
    apply List.map_congr_left
    intro i _
    have e : args.length - 1 + 1 + i = i + args.length := by omega
    rw [e, Nat.add_mod_right]
  refine ⟨⟨s, hs⟩, hlog2, fun w k j hj hw => ?_⟩
  rw [hlog2, window_of_cycle _ _ _ _ hw, count_window _ _ hj]

/-- Instance of `round_robin`: two tasks, four switches interleaved with other events. -/
theorem round_robin_witness :
    ∃ s0, createAll ⟨4, false⟩ (Demo.tasks 2) (initState Demo.mem Demo.cpu) = some s0 ∧
      switchLog ⟨4, false⟩
          [Event.pendsv, Event.delay 3, Event.pendsv, Event.tick, Event.pendsv,
           Event.task Demo.cpu Demo.mem, Event.pendsv] (OSStart s0)
        = (List.range 4).map (fun i => some (i % 2)) := by
  obtain ⟨-, s0, hs0, hev⟩ := round_robin ⟨4, false⟩ (Demo.tasks 2) Demo.mem Demo.cpu
    (by decide) (by decide) (by decide)
  exact ⟨s0, hs0, (hev [Event.pendsv, Event.delay 3, Event.pendsv, Event.tick, Event.pendsv,
    Event.task Demo.cpu Demo.mem, Event.pendsv]).2.1⟩

section
set_option maxRecDepth 8000

/-- C9, evaluated at the failing input: with `OS_MAX_TASKS = 257` and 257 tasks created, the
first two context switches after `OSStart` both switch in slot 0, not slot 0 and then
slot 1: the 257th creation, made with the 8-bit `task_num` back at 0, has made slot 0
its own successor. -/
theorem round_robin_fails_with_257_slots :
    (Demo.tasks 257).length ≤ (⟨257, false⟩ : Config).OS_MAX_TASKS ∧
    (createAll ⟨257, false⟩ (Demo.tasks 257) (initState Demo.mem Demo.cpu)).map
      (fun s0 => switchLog ⟨257, false⟩ [Event.pendsv, Event.pendsv] (OSStart s0))
      = some [some 0, some 0] ∧
    ¬ ∃ s0, createAll ⟨257, false⟩ (Demo.tasks 257) (initState Demo.mem Demo.cpu) = some s0 ∧
      switchLog ⟨257, false⟩ [Event.pendsv, Event.pendsv] (OSStart s0)
        = (List.range 2).map (fun i => some (i % 257)) := by
  have h0 : (createAll ⟨257, false⟩ (Demo.tasks 257) (initState Demo.mem Demo.cpu)).map
      (fun s0 => switchLog ⟨257, false⟩ [Event.pendsv, Event.pendsv] (OSStart s0))
      = some [some 0, some 0] := by decide
  refine ⟨by decide, h0, ?_⟩
  rintro ⟨s0, hs0, hlog⟩
  rw [hs0] at h0
  simp only [Option.map_some'] at h0
  rw [Option.some.inj h0] at hlog
  exact absurd hlog (by decide)

end

/-! ## Validity of the cursor -/

theorem createAll_closed (cfg : Config) (args : List (Nat × Nat)) (s s1 : State) (n : Nat)
    (htn : s.task_num = n % 256)
    (hlinks : ∀ k, k < min n 256 → ∃ j, j < min n 256 ∧ (s.OSTCBTbl k).OSTCBNext = some j)
    (hcur : 0 < n → ∃ c, c < min n 256 ∧ s.OSTCBCur = some c)
    (hcreate : createAll cfg args s = some s1) :
    (∀ k, k < min (n + args.length) 256 →
        ∃ j, j < min (n + args.length) 256 ∧ (s1.OSTCBTbl k).OSTCBNext = some j) ∧
      (0 < n + args.length → ∃ c, c < min (n + args.length) 256 ∧ s1.OSTCBCur = some c) := by
  induction args generalizing s n with
  | nil =>
    simp only [createAll, Option.some.injEq] at hcreate
    subst hcreate
    exact ⟨by simpa using hlinks, by simpa using hcur⟩
  | cons a rest ih =>
    simp only [createAll] at hcreate
    cases hT : TaskCreate cfg a.1 a.2 s with
    | spins s2 => rw [hT] at hcreate; simp at hcreate
    | returned s2 =>
      rw [hT] at hcreate
      simp only at hcreate
      have hroom := TaskCreate_returned_room cfg a.1 a.2 s s2 hT
      obtain ⟨s2b, h2, -, -, hnx, -, hc, ht, hprev, hoth, -⟩ :=
        TaskCreate_spec cfg a.1 a.2 s hroom
      have hs : s2b = s2 := by rw [hT] at h2; injection h2 with h; exact h.symm
      subst hs
      have hlt : n % 256 < 256 := Nat.mod_lt _ (by omega)
      have hmod : n < 256 → n % 256 = n := fun h => Nat.mod_eq_of_lt h
      have e : n + 1 + rest.length = n + (rest.length + 1) := by omega
      have := ih s2b (n + 1) (by rw [ht, htn]; omega) ?_ ?_ hcreate
      · simpa only [List.length_cons, e] using this
      · intro k hk
        by_cases hkt : k = s.task_num
        · subst hkt; exact ⟨0, by omega, hnx⟩
        · by_cases hkp : k + 1 = s.task_num
          · exact ⟨s.task_num, by rw [htn]; omega, hprev k hkp⟩
          · rw [hoth k hkt hkp]
            obtain ⟨j, hj, hjn⟩ := hlinks k (by rw [htn] at hkt; omega)
            exact ⟨j, by omega, hjn⟩
      · intro _
        exact ⟨s.task_num, by rw [htn]; omega, hc⟩

theorem run_closed (cfg : Config) (M : Nat) (events : List Event) (s : State)
    (hlinks : ∀ k, k < M → ∃ j, j < M ∧ (s.OSTCBTbl k).OSTCBNext = some j)
    (hcur : ∃ c, c < M ∧ s.OSTCBCur = some c) :
    ∃ s1, run cfg events s = some s1 ∧ ∃ c, c < M ∧ s1.OSTCBCur = some c := by
  induction events generalizing s with
  | nil => exact ⟨s, rfl, hcur⟩
  | cons e es ih =>
    obtain ⟨c, hc, hcc⟩ := hcur
    obtain ⟨j, hj, hjn⟩ := hlinks c hc
    obtain ⟨s1, h1, hl1, hc1⟩ := step_cursor cfg e s c j hcc hjn
    have hcur1 : ∃ c, c < M ∧ s1.OSTCBCur = some c := by
      cases e <;> first | exact ⟨j, hj, hc1⟩ | exact ⟨c, hc, hc1⟩
    obtain ⟨s2, h2, hc2⟩ := ih s1 (fun k hk => by rw [hl1]; exact hlinks k hk) hcur1
    exact ⟨s2, by simp only [run, h1, h2], hc2⟩

/-- C10: let `N ≥ 1` calls of `TaskCreate` from the initial state have returned, followed
by `OSStart`. Along every sequence of runs of `PendSV_Handler`, thread-mode execution,
delay stores of `OSTimeDly` and runs of `SysTick_Handler`, nothing faults and in the
state reached `OSTCBCur` points to one of the first `N` slots of `OSTCBTbl`. -/
theorem cursor_valid (cfg : Config) (args : List (Nat × Nat)) (mem : Mem) (cpu : CPU)
    (s0 : State) (events : List Event) (h1 : 1 ≤ args.length)
    (hcreate : createAll cfg args (initState mem cpu) = some s0) :
    ∃ s, run cfg events (OSStart s0) = some s ∧
      ∃ k, k < args.length ∧ s.OSTCBCur = some k := by
  obtain ⟨hlinks, hcur⟩ := createAll_closed cfg args (initState mem cpu) s0 0 rfl
    (fun k hk => by simp at hk) (fun h => by omega) hcreate
  simp only [Nat.zero_add] at hlinks hcur
  obtain ⟨s, hs, k, hk, hsk⟩ := run_closed cfg (min args.length 256) events (OSStart s0)
    hlinks (hcur (by omega))
  exact ⟨s, hs, k, by omega, hsk⟩

/-- Witness for C10: two tasks, then switches interleaved with a delay store, a tick and
thread-mode execution. -/
theorem cursor_valid_witness :
    createAll ⟨4, false⟩ (Demo.tasks 2) (initState Demo.mem Demo.cpu)
      = some (Demo.created ⟨4, false⟩ 2) ∧
    ∃ s, run ⟨4, false⟩ [Event.pendsv, Event.delay 3, Event.pendsv, Event.tick,
        Event.task Demo.cpu Demo.mem, Event.pendsv] (OSStart (Demo.created ⟨4, false⟩ 2))
        = some s ∧
      ∃ k, k < 2 ∧ s.OSTCBCur = some k :=
  ⟨rfl, cursor_valid ⟨4, false⟩ (Demo.tasks 2) Demo.mem Demo.cpu (Demo.created ⟨4, false⟩ 2)
    [Event.pendsv, Event.delay 3, Event.pendsv, Event.tick, Event.task Demo.cpu Demo.mem,
      Event.pendsv] (by decide) rfl⟩


/-! ## The tick counter -/

theorem tickN_SysTime (n : Nat) (s : State) (h : s.SysTime + n < 18446744073709551616) :
    (tickN n s).SysTime = s.SysTime + n := by
  induction n generalizing s with
  | zero => rfl
  | succ n ih =>
    simp only [tickN]
    have e : (SysTick_Handler s).SysTime = s.SysTime + 1 := by
      simp only [SysTick_Handler]; omega
    rw [ih _ (by rw [e]; omega), e]; omega

/-- C13: in every state, a run of `SysTick_Handler` changes `SysTime` from `T` to
`(T + 1) mod 2^64` and nothing else (TCB table, cursor, slot counter, memory and
registers are unchanged); hence along `n` tick interrupts that do not wrap the counter,
`OSTime_Now()` after `i` of them is `T + i`, and a later read is never smaller than an
earlier one. -/
theorem tick_increments (s : State) :
    (SysTick_Handler s).SysTime = (s.SysTime + 1) % 18446744073709551616 ∧
    (SysTick_Handler s).OSTCBTbl = s.OSTCBTbl ∧
    (SysTick_Handler s).OSTCBCur = s.OSTCBCur ∧
    (SysTick_Handler s).task_num = s.task_num ∧
    (SysTick_Handler s).mem = s.mem ∧
    (SysTick_Handler s).cpu = s.cpu ∧
    ∀ n, s.SysTime + n < 18446744073709551616 →
      (∀ i, i ≤ n → OSTime_Now (tickN i s) = s.SysTime + i) ∧
      ∀ i j, i ≤ j → j ≤ n → OSTime_Now (tickN i s) ≤ OSTime_Now (tickN j s) := by
  refine ⟨rfl, rfl, rfl, rfl, rfl, rfl, fun n hn => ?_⟩
  have h : ∀ i, i ≤ n → OSTime_Now (tickN i s) = s.SysTime + i := fun i hi => by
    simp only [OSTime_Now]; exact tickN_SysTime i s (by omega)
  refine ⟨h, fun i j hij hj => ?_⟩
  rw [h i (by omega), h j hj]; omega

/-- Witness for C13: three ticks from a counter at 0. -/
theorem tick_increments_witness :
    (Demo.created ⟨4, false⟩ 1).SysTime + 3 < 18446744073709551616 ∧
    OSTime_Now (tickN 3 (Demo.created ⟨4, false⟩ 1)) = (Demo.created ⟨4, false⟩ 1).SysTime + 3 ∧
    OSTime_Now (tickN 1 (Demo.created ⟨4, false⟩ 1))
      ≤ OSTime_Now (tickN 2 (Demo.created ⟨4, false⟩ 1)) :=
  ⟨by decide,
   ((tick_increments (Demo.created ⟨4, false⟩ 1)).2.2.2.2.2.2 3 (by decide)).1 3 (by decide),
   ((tick_increments (Demo.created ⟨4, false⟩ 1)).2.2.2.2.2.2 3 (by decide)).2 1 2 (by decide)
     (by decide)⟩


/-! ## `OSTimeDly` -/

theorem OSTimeDly_arm_spec (ticks : Nat) (s : State) (c : Nat) (hc : s.OSTCBCur = some c) :
    ∃ s1, OSTimeDly_arm ticks s = some s1 ∧
      s1.OSTCBCur = some c ∧
      (s1.OSTCBTbl c).OSTCBWakeTime
        = (OSTime_Now s + ticks % 65536) % 18446744073709551616 ∧
      (∀ k, k ≠ c → s1.OSTCBTbl k = s.OSTCBTbl k) ∧
      (∀ k, (s1.OSTCBTbl k).OSTCBNext = (s.OSTCBTbl k).OSTCBNext) ∧
      (∀ k, (s1.OSTCBTbl k).OSTCBStkPtr = (s.OSTCBTbl k).OSTCBStkPtr) ∧
      s1.SysTime = s.SysTime ∧ s1.task_num = s.task_num ∧ s1.mem = s.mem ∧
      s1.cpu = s.cpu := by
  simp only [OSTimeDly_arm, hc]
  refine ⟨_, rfl, rfl, ?_, ?_, ?_, ?_, rfl, rfl, rfl, rfl⟩
  · simp [updTCB]
  · intro k hk; simp [updTCB, hk]
  · intro k; simp only [updTCB]; split <;> simp_all
  · intro k; simp only [updTCB]; split <;> simp_all

theorem OSTimeDly_iter_spec (s : State) (c : Nat) (hc : s.OSTCBCur = some c) :
    (OSTime_Now s < (s.OSTCBTbl c).OSTCBWakeTime →
      OSTimeDly_iter s = some (true, __Sched s)) ∧
    (¬ OSTime_Now s < (s.OSTCBTbl c).OSTCBWakeTime →
      OSTimeDly_iter s = some (false, s)) := by
  constructor <;> intro h <;> simp [OSTimeDly_iter, hc, h]

/-- What a returning loop of `OSTimeDly` guarantees, for an environment that hands the
processor back with the caller current and its wake time untouched. -/
theorem OSTimeDly_loop_spec (env : Nat → State → State) (c W : Nat)
    (henv : ∀ i s1, s1.OSTCBCur = some c →
      (env i s1).OSTCBCur = some c ∧
      ((env i s1).OSTCBTbl c).OSTCBWakeTime = (s1.OSTCBTbl c).OSTCBWakeTime)
    (fuel i : Nat) (s s2 : State) (n : Nat)
    (hc : s.OSTCBCur = some c) (hW : (s.OSTCBTbl c).OSTCBWakeTime = W)
    (hret : OSTimeDly_loop env fuel i s = some (s2, n)) :
    s2.OSTCBCur = some c ∧ (s2.OSTCBTbl c).OSTCBWakeTime = W ∧ W ≤ OSTime_Now s2 ∧
      s2 = OSTimeDly_at env i n s ∧
      ∀ k, k < n → OSTime_Now (OSTimeDly_at env i k s) < W := by
  induction fuel generalizing i s s2 n with
  | zero => simp [OSTimeDly_loop] at hret
  | succ fuel ih =>
    obtain ⟨hce, hWe⟩ := henv i s hc
    obtain ⟨htrue, hfalse⟩ := OSTimeDly_iter_spec (env i s) c hce
    simp only [OSTimeDly_loop] at hret
    by_cases hlt : OSTime_Now (env i s) < ((env i s).OSTCBTbl c).OSTCBWakeTime
    · rw [htrue hlt] at hret
      simp only at hret
      cases hrec : OSTimeDly_loop env fuel (i + 1) (__Sched (env i s)) with
      | none => rw [hrec] at hret; simp at hret
      | some r =>
        obtain ⟨s3, m⟩ := r
        rw [hrec] at hret
        simp only [Option.some.injEq, Prod.mk.injEq] at hret
        obtain ⟨hs, hn⟩ := hret
        subst hs; subst hn
        obtain ⟨h1, h2, h3, h4, h5⟩ := ih (i + 1) (__Sched (env i s)) s3 m hce
          (by rw [← hW, ← hWe]; rfl) hrec
        refine ⟨h1, h2, h3, by rw [h4]; rfl, fun k hk => ?_⟩
        cases k with
        | zero => rw [← hW, ← hWe]; exact hlt
        | succ k => exact h5 k (by omega)
    · rw [hfalse hlt] at hret
      simp only [Option.some.injEq, Prod.mk.injEq] at hret
      obtain ⟨hs, hn⟩ := hret
      subst hs; subst hn
      refine ⟨hce, by rw [hWe, hW], by rw [← hW, ← hWe]; omega, rfl, fun k hk => by omega⟩

/-- The loop of `OSTimeDly` returns as soon as an evaluation of the condition finds the
counter at the wake time or past it. -/
theorem OSTimeDly_loop_returns (env : Nat → State → State) (c W : Nat)
    (henv : ∀ i s1, s1.OSTCBCur = some c →
      (env i s1).OSTCBCur = some c ∧
      ((env i s1).OSTCBTbl c).OSTCBWakeTime = (s1.OSTCBTbl c).OSTCBWakeTime)
    (k i : Nat) (s : State) (fuel : Nat)
    (hc : s.OSTCBCur = some c) (hW : (s.OSTCBTbl c).OSTCBWakeTime = W)
    (hk : W ≤ OSTime_Now (OSTimeDly_at env i k s)) (hfuel : k < fuel) :
    ∃ s2 n, OSTimeDly_loop env fuel i s = some (s2, n) ∧ n ≤ k := by
  induction k generalizing i s fuel with
  | zero =>
    obtain ⟨hce, hWe⟩ := henv i s hc
    obtain ⟨-, hfalse⟩ := OSTimeDly_iter_spec (env i s) c hce
    cases fuel with
    | zero => omega
    | succ fuel =>
      simp only [OSTimeDly_at] at hk
      simp only [OSTimeDly_loop]
      rw [hfalse (by rw [hWe, hW]; omega)]
      exact ⟨_, 0, rfl, le_refl _⟩
  | succ k ih =>
    obtain ⟨hce, hWe⟩ := henv i s hc
    obtain ⟨htrue, hfalse⟩ := OSTimeDly_iter_spec (env i s) c hce
    cases fuel with
    | zero => omega
    | succ fuel =>
      simp only [OSTimeDly_loop]
      by_cases hlt : OSTime_Now (env i s) < ((env i s).OSTCBTbl c).OSTCBWakeTime
      · rw [htrue hlt]
        obtain ⟨s2, n, h2, hn⟩ := ih (i + 1) (__Sched (env i s)) fuel hce
          (by rw [← hW, ← hWe]; rfl) hk (by omega)
        simp only [h2]
        exact ⟨s2, n + 1, rfl, by omega⟩
      · rw [hfalse hlt]
        exact ⟨_, 0, rfl, by omega⟩


/-- C11: let the current task `c` call `OSTimeDly(t)` with `t` a 16-bit count while
`OSTime_Now()` reads `T0`, `T0 + t < 2^64`, in an environment that hands the processor
back with `c` current and its wake time untouched. The store of line 133 returns and
puts `T0 + t` in `OSTCBWakeTime` of `c`. Whenever the call returns, in state `s2` after
`n` runs of the loop body, `OSTime_Now()` reads at least `T0 + t`, and each of the `n`
evaluations of the condition before the last found the counter below the wake time. An
evaluation that finds `OSTime_Now() < OSTCBWakeTime` runs `__Sched()` once, which sets
the pending bit, and any other evaluation ends the loop without it. The call does
return, within `k + 1` evaluations, once the `k`-th one would find the counter at
`T0 + t` or later. -/
theorem delay_floor (ticks : Nat) (env : Nat → State → State) (s : State) (c : Nat)
    (ht : ticks < 65536) (hT : OSTime_Now s + ticks < 18446744073709551616)
    (hc : s.OSTCBCur = some c)
    (henv : ∀ i s1, s1.OSTCBCur = some c →
      (env i s1).OSTCBCur = some c ∧
      ((env i s1).OSTCBTbl c).OSTCBWakeTime = (s1.OSTCBTbl c).OSTCBWakeTime) :
    ∃ s1, OSTimeDly_arm ticks s = some s1 ∧
      (s1.OSTCBTbl c).OSTCBWakeTime = OSTime_Now s + ticks ∧
      (∀ fuel s2 n, OSTimeDly ticks env fuel s = some (s2, n) →
        OSTime_Now s + ticks ≤ OSTime_Now s2 ∧
        ∀ k, k < n → OSTime_Now (OSTimeDly_at env 0 k s1) < OSTime_Now s + ticks) ∧
      (∀ s3 c3, s3.OSTCBCur = some c3 →
        (OSTime_Now s3 < (s3.OSTCBTbl c3).OSTCBWakeTime →
          OSTimeDly_iter s3 = some (true, __Sched s3) ∧ (__Sched s3).cpu.pendsvset = true) ∧
        (¬ OSTime_Now s3 < (s3.OSTCBTbl c3).OSTCBWakeTime →
          OSTimeDly_iter s3 = some (false, s3))) ∧
      (∀ k fuel, OSTime_Now s + ticks ≤ OSTime_Now (OSTimeDly_at env 0 k s1) → k < fuel →
        ∃ s2 n, OSTimeDly ticks env fuel s = some (s2, n) ∧ n ≤ k) := by
  obtain ⟨s1, h1, hc1, hw1, -⟩ := OSTimeDly_arm_spec ticks s c hc
  have hw : (s1.OSTCBTbl c).OSTCBWakeTime = OSTime_Now s + ticks := by
    rw [hw1, Nat.mod_eq_of_lt ht, Nat.mod_eq_of_lt hT]
  refine ⟨s1, h1, hw, ?_, ?_, ?_⟩
  · intro fuel s2 n hret
    simp only [OSTimeDly, h1] at hret
    obtain ⟨-, -, h3, -, h5⟩ := OSTimeDly_loop_spec env c _ henv fuel 0 s1 s2 n hc1 hw hret
    exact ⟨h3, h5⟩
  · intro s3 c3 hc3
    obtain ⟨htrue, hfalse⟩ := OSTimeDly_iter_spec s3 c3 hc3
    exact ⟨fun h => ⟨htrue h, rfl⟩, hfalse⟩
  · intro k fuel hk hfuel
    simp only [OSTimeDly, h1]
    exact OSTimeDly_loop_returns env c _ henv k 0 s1 fuel hc1 hw hk hfuel

/-- Witness for C11: `OSTimeDly(3)` at tick 0 with one tick before every evaluation of the
loop condition. -/
theorem delay_floor_witness :
    ∃ s2 n, OSTimeDly 3 (fun _ => SysTick_Handler) 5 (Demo.created ⟨4, false⟩ 1) = some (s2, n) ∧
      n ≤ 2 ∧ OSTime_Now (Demo.created ⟨4, false⟩ 1) + 3 ≤ OSTime_Now s2 := by
  obtain ⟨s1, h1, -, hret, -, hterm⟩ := delay_floor 3 (fun _ => SysTick_Handler)
    (Demo.created ⟨4, false⟩ 1) 0 (by decide) (by decide) rfl (fun _ _ h => ⟨h, rfl⟩)
  have hs : s1 = (match OSTimeDly_arm 3 (Demo.created ⟨4, false⟩ 1) with
      | some x => x
      | none => Demo.created ⟨4, false⟩ 1) := Option.some.inj (h1.symm.trans rfl)
  subst hs
  obtain ⟨s2, n, h2, hn⟩ := hterm 2 5 (by decide) (by decide)
  exact ⟨s2, n, h2, hn, (hret 5 s2 n h2).1⟩

/-- C12: let the current task call `OSTimeDly(0)` while `OSTime_Now()` reads a 64-bit
value `T0`, and let the read of the first evaluation of the loop condition be no smaller
(the environment before it leaves the caller current and its wake time untouched). Then
the store of line 133 returns, and with any fuel the call returns after zero runs of the
loop body, in the state of that first evaluation: `__Sched()` is never called. -/
theorem delay_zero_no_yield (env : Nat → State → State) (s : State) (c : Nat)
    (hT : OSTime_Now s < 18446744073709551616) (hc : s.OSTCBCur = some c)
    (henv : ∀ s1, s1.OSTCBCur = some c →
      (env 0 s1).OSTCBCur = some c ∧
      ((env 0 s1).OSTCBTbl c).OSTCBWakeTime = (s1.OSTCBTbl c).OSTCBWakeTime)
    (hmono : ∀ s1, OSTimeDly_arm 0 s = some s1 → OSTime_Now s1 ≤ OSTime_Now (env 0 s1)) :
    ∃ s1, OSTimeDly_arm 0 s = some s1 ∧
      OSTimeDly_iter (env 0 s1) = some (false, env 0 s1) ∧
      ∀ fuel, 0 < fuel → OSTimeDly 0 env fuel s = some (env 0 s1, 0) := by
  obtain ⟨s1, h1, hc1, hw1, -, -, -, hsys, -⟩ := OSTimeDly_arm_spec 0 s c hc
  have hw : (s1.OSTCBTbl c).OSTCBWakeTime = OSTime_Now s := by
    rw [hw1]; simp only [Nat.zero_mod, Nat.add_zero]; exact Nat.mod_eq_of_lt hT
  obtain ⟨hce, hWe⟩ := henv s1 hc1
  have hge := hmono s1 h1
  have hnow : OSTime_Now s1 = OSTime_Now s := hsys
  obtain ⟨-, hfalse⟩ := OSTimeDly_iter_spec (env 0 s1) c hce
  have hiter := hfalse (by rw [hWe, hw]; omega)
  refine ⟨s1, h1, hiter, fun fuel hfuel => ?_⟩
  cases fuel with
  | zero => omega
  | succ fuel => simp only [OSTimeDly, h1, OSTimeDly_loop, hiter]

/-- Witness for C12: `OSTimeDly(0)` at tick 0, a tick arriving before the loop condition
is first evaluated. -/
theorem delay_zero_no_yield_witness :
    ∃ s1, OSTimeDly_arm 0 (Demo.created ⟨4, false⟩ 1) = some s1 ∧
      OSTimeDly 0 (fun _ => SysTick_Handler) 1 (Demo.created ⟨4, false⟩ 1)
        = some (SysTick_Handler s1, 0) := by
  obtain ⟨s1, h1, -, hret⟩ := delay_zero_no_yield (fun _ => SysTick_Handler)
    (Demo.created ⟨4, false⟩ 1) 0 (by decide) rfl (fun _ h => ⟨h, rfl⟩)
    (fun s1 h => by
      have hs : s1 = (match OSTimeDly_arm 0 (Demo.created ⟨4, false⟩ 1) with
          | some x => x
          | none => Demo.created ⟨4, false⟩ 1) := Option.some.inj (h.symm.trans rfl)
      subst hs
      decide)
  exact ⟨s1, h1, hret 1 (by decide)⟩


/-- C16 (amended): `TaskCreate` leaves `OSTCBWakeTime` of the new TCB at 0, and
`OSTimeDly(t)`, called by the current task `c` while `OSTime_Now()` reads `T0` (with
`T0 + t < 2^64`, the environment handing the processor back with `c` current and its
wake time untouched), never clears it: whenever the call returns, `OSTCBWakeTime` of `c`
is still `T0 + t`, a value the tick counter has reached. -/
theorem wake_time_kept (cfg : Config) (ticks : Nat) (env : Nat → State → State) (s : State)
    (c : Nat) (ht : ticks < 65536) (hT : OSTime_Now s + ticks < 18446744073709551616)
    (hc : s.OSTCBCur = some c)
    (henv : ∀ i s1, s1.OSTCBCur = some c →
      (env i s1).OSTCBCur = some c ∧
      ((env i s1).OSTCBTbl c).OSTCBWakeTime = (s1.OSTCBTbl c).OSTCBWakeTime) :
    (∀ task stk s0 s1, TaskCreate cfg task stk s0 = Outcome.returned s1 →
      (s1.OSTCBTbl s0.task_num).OSTCBWakeTime = 0) ∧
    (∀ fuel s2 n, OSTimeDly ticks env fuel s = some (s2, n) →
      (s2.OSTCBTbl c).OSTCBWakeTime = OSTime_Now s + ticks ∧
      (s2.OSTCBTbl c).OSTCBWakeTime ≤ OSTime_Now s2) := by
  constructor
  · intro task stk s0 s1 hcreate
    have hroom := TaskCreate_returned_room cfg task stk s0 s1 hcreate
    obtain ⟨s1b, h1, -, -, -, hw, -⟩ := TaskCreate_spec cfg task stk s0 hroom
    have hs : s1b = s1 := by rw [hcreate] at h1; injection h1 with h; exact h.symm
    subst hs; exact hw
  · intro fuel s2 n hret
    obtain ⟨s1, h1, hc1, hw1, -⟩ := OSTimeDly_arm_spec ticks s c hc
    have hw : (s1.OSTCBTbl c).OSTCBWakeTime = OSTime_Now s + ticks := by
      rw [hw1, Nat.mod_eq_of_lt ht, Nat.mod_eq_of_lt hT]
    simp only [OSTimeDly, h1] at hret
    obtain ⟨-, h2, h3, -⟩ := OSTimeDly_loop_spec env c _ henv fuel 0 s1 s2 n hc1 hw hret
    exact ⟨h2, by rw [h2]; exact h3⟩

/-- Witness for C16 (amended): `OSTimeDly(3)` at tick 0 with one tick before every
evaluation of the loop condition, run with fuel for five evaluations. -/
theorem wake_time_kept_witness :
    ∃ s2 n, OSTimeDly 3 (fun _ => SysTick_Handler) 5 (Demo.created ⟨4, false⟩ 1) = some (s2, n) ∧
      (s2.OSTCBTbl 0).OSTCBWakeTime = OSTime_Now (Demo.created ⟨4, false⟩ 1) + 3 ∧
      (s2.OSTCBTbl 0).OSTCBWakeTime ≤ OSTime_Now s2 := by
  have hsome : (OSTimeDly 3 (fun _ => SysTick_Handler) 5
      (Demo.created ⟨4, false⟩ 1)).isSome = true := by decide
  cases hr : OSTimeDly 3 (fun _ => SysTick_Handler) 5 (Demo.created ⟨4, false⟩ 1) with
  | none => rw [hr] at hsome; simp at hsome
  | some r =>
    obtain ⟨s2, n⟩ := r
    exact ⟨s2, n, rfl, (wake_time_kept ⟨4, false⟩ 3 (fun _ => SysTick_Handler)
      (Demo.created ⟨4, false⟩ 1) 0 (by decide) (by decide) rfl
      (fun _ _ h => ⟨h, rfl⟩)).2 5 s2 n hr⟩

/-- Counterexample to C16 as stated: `OSTimeDly(3)` called at tick 0 by the only task, with
one tick before every evaluation of the loop condition, returns after two runs of the
loop body with `OSTCBWakeTime` of the caller equal to 3, not 0. -/
theorem wake_time_not_cleared :
    (OSTimeDly 3 (fun _ => SysTick_Handler) 5 (Demo.created ⟨4, false⟩ 1)).map
      (fun r => ((r.1.OSTCBTbl 0).OSTCBWakeTime, r.2)) = some (3, 2) ∧
    ¬ ∀ s2 n, OSTimeDly 3 (fun _ => SysTick_Handler) 5 (Demo.created ⟨4, false⟩ 1)
        = some (s2, n) → (s2.OSTCBTbl 0).OSTCBWakeTime = 0 := by
  have h0 : (OSTimeDly 3 (fun _ => SysTick_Handler) 5 (Demo.created ⟨4, false⟩ 1)).map
      (fun r => ((r.1.OSTCBTbl 0).OSTCBWakeTime, r.2)) = some (3, 2) := by decide
  refine ⟨h0, fun h => ?_⟩
  cases hr : OSTimeDly 3 (fun _ => SysTick_Handler) 5 (Demo.created ⟨4, false⟩ 1) with
  | none => rw [hr] at h0; simp at h0
  | some r =>
    obtain ⟨s2, n⟩ := r
    rw [hr] at h0
    simp only [Option.map_some', Option.some.injEq, Prod.mk.injEq] at h0
    have := h s2 n hr
    omega

/-! ## Who writes the cursor -/

theorem OSTimeDly_loop_cur (env : Nat → State → State)
    (henv : ∀ i s1, (env i s1).OSTCBCur = s1.OSTCBCur)
    (fuel i : Nat) (s s2 : State) (n : Nat)
    (hret : OSTimeDly_loop env fuel i s = some (s2, n)) : s2.OSTCBCur = s.OSTCBCur := by
  induction fuel generalizing i s s2 n with
  | zero => simp [OSTimeDly_loop] at hret
  | succ fuel ih =>
    simp only [OSTimeDly_loop] at hret
    cases hc : (env i s).OSTCBCur with
    | none => simp [OSTimeDly_iter, hc] at hret
    | some c =>
      obtain ⟨htrue, hfalse⟩ := OSTimeDly_iter_spec (env i s) c hc
      by_cases hlt : OSTime_Now (env i s) < ((env i s).OSTCBTbl c).OSTCBWakeTime
      · rw [htrue hlt] at hret
        simp only at hret
        cases hrec : OSTimeDly_loop env fuel (i + 1) (__Sched (env i s)) with
        | none => rw [hrec] at hret; simp at hret
        | some r =>
          obtain ⟨s3, m⟩ := r
          rw [hrec] at hret
          simp only [Option.some.injEq, Prod.mk.injEq] at hret
          obtain ⟨hs, -⟩ := hret
          subst hs
          rw [ih (i + 1) (__Sched (env i s)) s3 m hrec]
          exact henv i s
      · rw [hfalse hlt] at hret
        simp only [Option.some.injEq, Prod.mk.injEq] at hret
        obtain ⟨hs, -⟩ := hret
        subst hs
        exact henv i s

theorem PendSV_Handler_some (cfg : Config) (s s1 : State)
    (h : PendSV_Handler cfg s = some s1) :
    ∃ c n, s.OSTCBCur = some c ∧ (s.OSTCBTbl c).OSTCBNext = some n ∧
      s1.OSTCBCur = some n := by
  cases hc : s.OSTCBCur with
  | none =>
    by_cases hp : s.cpu.psp = 0
    · simp [PendSV_Handler, PendSV_save_psp_zero cfg s hp, PendSV_restore, hc] at h
    · simp [PendSV_Handler, PendSV_save, hp, hc] at h
  | some c =>
    cases hn : (s.OSTCBTbl c).OSTCBNext with
    | none =>
      obtain ⟨s2, h2, hc2, hl2⟩ := PendSV_save_links cfg s c hc
      simp [PendSV_Handler, h2, PendSV_restore, hc2, hl2, hn] at h
    | some n =>
      obtain ⟨s2, h2, hc2, -⟩ := PendSV_Handler_cursor cfg s c n hc hn
      rw [h] at h2
      have := Option.some.inj h2
      subst this
      exact ⟨c, n, rfl, hn, hc2⟩

/-- C14 (amended): in every state and for all arguments, `OSStart`, `SysTick_Handler` and
`OSTimeDly` (its store, each evaluation of its loop, `__Sched`, and the whole call in an
environment that leaves the cursor alone) leave `OSTCBCur` unchanged; `TaskCreate` leaves
it unchanged when it spins and sets it to the slot it has filled when it returns; a run
of `PendSV_Handler` that returns sets it to the link of the TCB that was current. -/
theorem cursor_writers (cfg : Config) (s : State) :
    (OSStart s).OSTCBCur = s.OSTCBCur ∧
    (SysTick_Handler s).OSTCBCur = s.OSTCBCur ∧
    (__Sched s).OSTCBCur = s.OSTCBCur ∧
    (∀ ticks s1, OSTimeDly_arm ticks s = some s1 → s1.OSTCBCur = s.OSTCBCur) ∧
    (∀ b s1, OSTimeDly_iter s = some (b, s1) → s1.OSTCBCur = s.OSTCBCur) ∧
    (∀ ticks env fuel s2 n, (∀ i s1, (env i s1).OSTCBCur = s1.OSTCBCur) →
      OSTimeDly ticks env fuel s = some (s2, n) → s2.OSTCBCur = s.OSTCBCur) ∧
    (∀ task stk s1, TaskCreate cfg task stk s = Outcome.spins s1 → s1 = s) ∧
    (∀ task stk s1, TaskCreate cfg task stk s = Outcome.returned s1 →
      s1.OSTCBCur = some s.task_num) ∧
    (∀ s1, PendSV_Handler cfg s = some s1 →
      ∃ c, s.OSTCBCur = some c ∧ s1.OSTCBCur = (s.OSTCBTbl c).OSTCBNext) := by
  have harm : ∀ ticks s1, OSTimeDly_arm ticks s = some s1 → s1.OSTCBCur = s.OSTCBCur := by
    intro ticks s1 h
    cases hc : s.OSTCBCur with
    | none => simp [OSTimeDly_arm, hc] at h
    | some c =>
      obtain ⟨s1b, h1, hc1, -⟩ := OSTimeDly_arm_spec ticks s c hc
      rw [h] at h1
      have := Option.some.inj h1
      subst this
      exact hc1
  refine ⟨rfl, rfl, rfl, harm, ?_, ?_, ?_, ?_, ?_⟩
  · intro b s1 h
    cases hc : s.OSTCBCur with
    | none => simp [OSTimeDly_iter, hc] at h
    | some c =>
      obtain ⟨htrue, hfalse⟩ := OSTimeDly_iter_spec s c hc
      by_cases hlt : OSTime_Now s < (s.OSTCBTbl c).OSTCBWakeTime
      · rw [htrue hlt] at h
        simp only [Option.some.injEq, Prod.mk.injEq] at h
        rw [← h.2, ← hc]; rfl
      · rw [hfalse hlt] at h
        simp only [Option.some.injEq, Prod.mk.injEq] at h
        rw [← h.2]; exact hc
  · intro ticks env fuel s2 n henv h
    cases ha : OSTimeDly_arm ticks s with
    | none => simp [OSTimeDly, ha] at h
    | some s1 =>
      simp only [OSTimeDly, ha] at h
      rw [OSTimeDly_loop_cur env henv fuel 0 s1 s2 n h, harm ticks s1 ha]
  · intro task stk s1 h
    by_cases hge : s.task_num ≥ cfg.OS_MAX_TASKS
    · simp only [TaskCreate, hge, if_true] at h
      injection h with h
      exact h.symm
    · simp [TaskCreate, hge] at h
  · intro task stk s1 h
    have hroom := TaskCreate_returned_room cfg task stk s s1 h
    obtain ⟨s1b, h1, -, -, -, -, hc, -⟩ := TaskCreate_spec cfg task stk s hroom
    have hs : s1b = s1 := by rw [h] at h1; injection h1 with h; exact h.symm
    subst hs; exact hc
  · intro s1 h
    obtain ⟨c, n, hc, hn, hc1⟩ := PendSV_Handler_some cfg s s1 h
    exact ⟨c, hc, by rw [hc1, hn]⟩

/-- Witness for C14 (amended): the second creation moves the cursor to slot 1, `OSStart`
leaves it there, and the first switch moves it along the link of slot 1. -/
theorem cursor_writers_witness :
    (OSStart (Demo.created ⟨4, false⟩ 2)).OSTCBCur = (Demo.created ⟨4, false⟩ 2).OSTCBCur ∧
    (∃ s1, TaskCreate ⟨4, false⟩ 0x08000111 0x200005FC (Demo.created ⟨4, false⟩ 1)
        = Outcome.returned s1 ∧ s1.OSTCBCur = some 1) ∧
    (∃ s1, PendSV_Handler ⟨4, false⟩ (OSStart (Demo.created ⟨4, false⟩ 2)) = some s1 ∧
      ∃ c, (OSStart (Demo.created ⟨4, false⟩ 2)).OSTCBCur = some c ∧
        s1.OSTCBCur = ((OSStart (Demo.created ⟨4, false⟩ 2)).OSTCBTbl c).OSTCBNext) := by
  refine ⟨(cursor_writers ⟨4, false⟩ (Demo.created ⟨4, false⟩ 2)).1, ?_, ?_⟩
  · obtain ⟨s1, h1, -⟩ := TaskCreate_spec ⟨4, false⟩ 0x08000111 0x200005FC
      (Demo.created ⟨4, false⟩ 1) (by decide)
    exact ⟨s1, h1, (cursor_writers ⟨4, false⟩ (Demo.created ⟨4, false⟩ 1)).2.2.2.2.2.2.2.1
      0x08000111 0x200005FC s1 h1⟩
  · obtain ⟨s1, h1, -⟩ := PendSV_Handler_cursor ⟨4, false⟩ (OSStart (Demo.created ⟨4, false⟩ 2))
      1 0 rfl rfl
    exact ⟨s1, h1, (cursor_writers ⟨4, false⟩ (OSStart (Demo.created ⟨4, false⟩ 2))).2.2.2.2.2.2.2.2
      s1 h1⟩

/-- Counterexample to C14 as stated: the first `TaskCreate` returns and changes
`OSTCBCur` from null to slot 0. -/
theorem TaskCreate_moves_cursor :
    (initState Demo.mem Demo.cpu).OSTCBCur = none ∧
    ∃ s1, TaskCreate ⟨4, false⟩ 0x08000101 0x200003FC (initState Demo.mem Demo.cpu)
        = Outcome.returned s1 ∧
      s1.OSTCBCur = some 0 ∧ s1.OSTCBCur ≠ (initState Demo.mem Demo.cpu).OSTCBCur := by
  obtain ⟨s1, h1, -, -, -, -, hc, -⟩ := TaskCreate_spec ⟨4, false⟩ 0x08000101 0x200003FC
    (initState Demo.mem Demo.cpu) (by decide)
  refine ⟨rfl, s1, h1, hc, ?_⟩
  rw [hc]; exact fun h => by cases h

/-! ## Where `TaskCreate` writes -/

/-- C15 (amended): let `stk` be the address of the highest usable word of the stack buffer,
at least one frame above address 0. A call `TaskCreate(task, stk)` with a free slot
returns, records `OSTCBStkPtr = stk - 4 * 15` (`stk - 4 * 48` in the FPU build), and
every word of memory it changes lies at an address no lower than the recorded stack
pointer and no higher than `stk`; the xPSR word is the one at `stk` itself. -/
theorem frame_within_buffer (cfg : Config) (s : State) (task stk : Nat)
    (hroom : s.task_num < cfg.OS_MAX_TASKS) (hstk : stk < 4294967296)
    (hfit : 4 * (if cfg.fpu then 48 else 15) ≤ stk) :
    ∃ s1, TaskCreate cfg task stk s = Outcome.returned s1 ∧
      (s1.OSTCBTbl s.task_num).OSTCBStkPtr = stk - 4 * (if cfg.fpu then 48 else 15) ∧
      (∀ x, s1.mem x ≠ s.mem x → (s1.OSTCBTbl s.task_num).OSTCBStkPtr ≤ x ∧ x ≤ stk) ∧
      s1.mem stk = 0x01000000 := by
  obtain ⟨s1, h1, hx, -, hoth, hsp, -⟩ := TaskCreate_frame cfg task stk s hroom hstk
  rw [frameWords_length] at hsp hoth
  have hsp2 : (s1.OSTCBTbl s.task_num).OSTCBStkPtr = stk - 4 * (if cfg.fpu then 48 else 15) := by
    rw [hsp]; unfold sub32; split at hfit <;> simp_all <;> omega
  refine ⟨s1, h1, hsp2, ?_, hx⟩
  intro x hne
  rw [hsp2]
  by_contra hout
  apply hne
  apply hoth x
  · omega
  · intro i hi
    unfold sub32
    split at hfit <;> simp_all <;> omega

/-- Witness for C15 (amended): the first creation of a build without FPU. -/
theorem frame_within_buffer_witness :
    ∃ s1, TaskCreate ⟨4, false⟩ 0x08000101 0x200003FC (initState Demo.mem Demo.cpu)
        = Outcome.returned s1 ∧
      (s1.OSTCBTbl 0).OSTCBStkPtr = 0x200003FC - 4 * 15 ∧
      (∀ x, s1.mem x ≠ Demo.mem x → (s1.OSTCBTbl 0).OSTCBStkPtr ≤ x ∧ x ≤ 0x200003FC) ∧
      s1.mem 0x200003FC = 0x01000000 :=
  frame_within_buffer ⟨4, false⟩ (initState Demo.mem Demo.cpu) 0x08000101 0x200003FC
    (by decide) (by decide) (by decide)

/-- Counterexample to C15 as stated: the first `TaskCreate(task, stk)` changes the word at
the address `stk` itself, from 0 to the xPSR value, and `stk` is not strictly below
`stk`. -/
theorem TaskCreate_writes_at_stack_top :
    ∃ s1, TaskCreate ⟨4, false⟩ 0x08000101 0x20000400 (initState Demo.mem Demo.cpu)
        = Outcome.returned s1 ∧
      s1.mem 0x20000400 = 0x01000000 ∧ (initState Demo.mem Demo.cpu).mem 0x20000400 = 0 ∧
      ¬ ∀ x, s1.mem x ≠ (initState Demo.mem Demo.cpu).mem x → x < 0x20000400 := by
  obtain ⟨s1, h1, hx, -⟩ := TaskCreate_frame ⟨4, false⟩ 0x08000101 0x20000400
    (initState Demo.mem Demo.cpu) (by decide) (by decide)
  refine ⟨s1, h1, hx, rfl, fun h => ?_⟩
  have := h 0x20000400 (by rw [hx]; decide)
  omega


/-! ## Frame effect of a context switch -/

/-- C18: build without FPU, in a state with `PSP = p ≠ 0` and current task `c`. Whenever a
run of `PendSV_Handler` returns, memory is unchanged outside the 8 words immediately
below `p`, the only field of the TCB table that changed is `OSTCBStkPtr` of `c`, now
`p - 32`: every other TCB is unchanged, so are all `OSTCBNext` and `OSTCBWakeTime`
fields, `SysTime` and `task_num`; the cursor is the link of `c`. The run does return
when that link is not null, and it switches in the same slot whatever the wake times
and the tick counter are. -/
theorem context_switch_frame (cfg : Config) (s : State) (c : Nat)
    (hfpu : cfg.fpu = false) (hp0 : s.cpu.psp ≠ 0) (hp : s.cpu.psp < 4294967296)
    (hc : s.OSTCBCur = some c) :
    (∀ s1, PendSV_Handler cfg s = some s1 →
      (∀ x, (∀ i, i < 8 → x ≠ sub32 s.cpu.psp (4 * (i + 1))) → s1.mem x = s.mem x) ∧
      (s1.OSTCBTbl c).OSTCBStkPtr = sub32 s.cpu.psp 32 ∧
      (∀ k, k ≠ c → s1.OSTCBTbl k = s.OSTCBTbl k) ∧
      (∀ k, (s1.OSTCBTbl k).OSTCBNext = (s.OSTCBTbl k).OSTCBNext) ∧
      (∀ k, (s1.OSTCBTbl k).OSTCBWakeTime = (s.OSTCBTbl k).OSTCBWakeTime) ∧
      s1.SysTime = s.SysTime ∧ s1.task_num = s.task_num ∧
      s1.OSTCBCur = (s.OSTCBTbl c).OSTCBNext) ∧
    (∀ n, (s.OSTCBTbl c).OSTCBNext = some n →
      (∃ s1, PendSV_Handler cfg s = some s1 ∧ s1.OSTCBCur = some n) ∧
      ∀ (w : Nat → Nat) (T : Nat),
        ∃ s1, PendSV_Handler cfg
            { s with SysTime := T,
                     OSTCBTbl := fun k => { s.OSTCBTbl k with OSTCBWakeTime := w k } }
            = some s1 ∧ s1.OSTCBCur = some n) := by
  constructor
  · intro s1 h1
    obtain ⟨s2, h2, hc2, hsp2, hnx2, hwk2, hoth2, -, -, hmem2, -, hsys2, htn2⟩ :=
      PendSV_save_spec cfg s c hp0 hp hc
    simp only [hfpu, Bool.false_eq_true, if_false] at hsp2 hmem2
    obtain ⟨c', n, hc', hn, hcn⟩ := PendSV_Handler_some cfg s s1 h1
    have hcc : c' = c := by rw [hc] at hc'; exact (Option.some.inj hc').symm
    subst hcc
    obtain ⟨s3, h3, -, ht3, hm3, hsys3, htn3, -⟩ :=
      PendSV_restore_spec cfg s2 c' n hc2 (by rw [hnx2, hn])
    have h13 : s1 = s3 := by
      simp only [PendSV_Handler, h2, h3] at h1
      exact (Option.some.inj h1).symm
    subst h13
    refine ⟨fun x hx => by rw [hm3]; exact hmem2 x hx, by rw [ht3]; exact hsp2,
      fun k hk => by rw [ht3]; exact hoth2 k hk, fun k => by rw [ht3]; exact hnx2 k,
      fun k => by rw [ht3]; exact hwk2 k, by rw [hsys3, hsys2], by rw [htn3, htn2],
      by rw [hcn, hn]⟩
  · intro n hn
    refine ⟨?_, fun w T => ?_⟩
    · obtain ⟨s1, h1, hc1, -⟩ := PendSV_Handler_cursor cfg s c n hc hn
      exact ⟨s1, h1, hc1⟩
    · obtain ⟨s1, h1, hc1, -⟩ := PendSV_Handler_cursor cfg
        { s with SysTime := T,
                 OSTCBTbl := fun k => { s.OSTCBTbl k with OSTCBWakeTime := w k } } c n hc hn
      exact ⟨s1, h1, hc1⟩

/-- Witness for C18: the only task of a build without FPU yields. -/
theorem context_switch_frame_witness :
    (Demo.created ⟨4, false⟩ 1).cpu.psp ≠ 0 ∧
    ∃ s1, PendSV_Handler ⟨4, false⟩ (Demo.created ⟨4, false⟩ 1) = some s1 ∧
      s1.OSTCBCur = some 0 ∧
      (s1.OSTCBTbl 0).OSTCBStkPtr = sub32 (Demo.created ⟨4, false⟩ 1).cpu.psp 32 ∧
      s1.SysTime = (Demo.created ⟨4, false⟩ 1).SysTime := by
  obtain ⟨hframe, hrun⟩ := context_switch_frame ⟨4, false⟩ (Demo.created ⟨4, false⟩ 1) 0 rfl
    (by decide) (by decide) rfl
  obtain ⟨⟨s1, h1, hc1⟩, -⟩ := hrun 0 rfl
  obtain ⟨-, hsp, -, -, -, hsys, -⟩ := hframe s1 h1
  exact ⟨by decide, s1, h1, hc1, hsp, hsys⟩

/-! ## The slot counter -/

theorem TaskCreate_keeps (cfg : Config) (task stk : Nat) (s s1 : State) (k : Nat)
    (h : TaskCreate cfg task stk s = Outcome.returned s1) (hk : k ≠ s.task_num) :
    (s1.OSTCBTbl k).OSTCBStkPtr = (s.OSTCBTbl k).OSTCBStkPtr ∧
    (s1.OSTCBTbl k).OSTCBWakeTime = (s.OSTCBTbl k).OSTCBWakeTime := by
  have hroom := TaskCreate_returned_room cfg task stk s s1 h
  simp only [TaskCreate, ge_iff_le, not_le.mpr hroom, if_false] at h
  injection h with h
  subst h
  by_cases h0 : s.task_num > 0
  · by_cases hk1 : k = s.task_num - 1
    · subst hk1
      simp [updTCB, h0, hk]
    · simp [updTCB, h0, hk, hk1]
  · simp [updTCB, h0, hk]

theorem createAll_keeps (cfg : Config) (args : List (Nat × Nat)) (s s1 : State) (n k : Nat)
    (htn : s.task_num = n % 256) (hk : k < n) (h256 : n + args.length ≤ 256)
    (hc : createAll cfg args s = some s1) :
    (s1.OSTCBTbl k).OSTCBStkPtr = (s.OSTCBTbl k).OSTCBStkPtr ∧
    (s1.OSTCBTbl k).OSTCBWakeTime = (s.OSTCBTbl k).OSTCBWakeTime := by
  induction args generalizing s n with
  | nil =>
    simp only [createAll, Option.some.injEq] at hc
    subst hc; exact ⟨rfl, rfl⟩
  | cons a rest ih =>
    simp only [createAll] at hc
    simp only [List.length_cons] at h256
    cases hT : TaskCreate cfg a.1 a.2 s with
    | spins s2 => rw [hT] at hc; simp at hc
    | returned s2 =>
      rw [hT] at hc
      simp only at hc
      have hroom := TaskCreate_returned_room cfg a.1 a.2 s s2 hT
      obtain ⟨s2b, h2, -, -, -, -, -, ht, -⟩ := TaskCreate_spec cfg a.1 a.2 s hroom
      have hs : s2b = s2 := by rw [hT] at h2; injection h2 with h; exact h.symm
      subst hs
      have hn : n % 256 = n := Nat.mod_eq_of_lt (by omega)
      obtain ⟨k1, k2⟩ := TaskCreate_keeps cfg a.1 a.2 s s2b k hT (by omega)
      obtain ⟨i1, i2⟩ := ih s2b (n + 1) (by rw [ht, htn, hn]) (by omega) (by omega) hc
      exact ⟨by rw [i1, k1], by rw [i2, k2]⟩

/-- The state after a first creation `(task, stk)` followed by further ones, at most 256
in all: slot 0 still records the stack pointer of the first frame, the last slot filled
is current and its link is slot 0. -/
theorem createAll_first (cfg : Config) (task stk : Nat) (rest : List (Nat × Nat))
    (mem : Mem) (cpu : CPU) (hstk : stk < 4294967296)
    (hmax : rest.length + 1 ≤ cfg.OS_MAX_TASKS) (h256 : rest.length + 1 ≤ 256) :
    ∃ sa s0, TaskCreate cfg task stk (initState mem cpu) = Outcome.returned sa ∧
      createAll cfg rest sa = some s0 ∧
      createAll cfg ((task, stk) :: rest) (initState mem cpu) = some s0 ∧
      (s0.OSTCBTbl 0).OSTCBStkPtr = sub32 stk (4 * (frameWords cfg task).length) ∧
      s0.task_num = (rest.length + 1) % 256 ∧
      s0.OSTCBCur = some rest.length ∧
      (s0.OSTCBTbl rest.length).OSTCBNext = some 0 := by
  obtain ⟨s0, hs0, htn, hring, hcur, -⟩ := createAll_ring cfg ((task, stk) :: rest)
    (initState mem cpu) 0 rfl (by simp only [List.length_cons]; omega)
    (by simp only [List.length_cons]; omega) (fun k hk => by omega) (fun h => by omega)
  simp only [List.length_cons, Nat.zero_add] at htn hring hcur
  obtain ⟨sa, ha, -, -, -, hspa, -⟩ := TaskCreate_frame cfg task stk (initState mem cpu)
    (by simp only [initState]; omega) hstk
  obtain ⟨sb, hb, -, -, -, -, -, htb, -⟩ := TaskCreate_spec cfg task stk (initState mem cpu)
    (by simp only [initState]; omega)
  have hab : sb = sa := Outcome.returned.inj (hb.symm.trans ha)
  subst hab
  have hrest : createAll cfg rest sb = some s0 := by
    simpa only [createAll, ha] using hs0
  obtain ⟨hkeep, -⟩ := createAll_keeps cfg rest sb s0 1 0 htb (by omega) (by omega) hrest
  refine ⟨sb, s0, ha, hrest, hs0, by rw [hkeep]; exact hspa, htn, ?_, ?_⟩
  · have := hcur (by omega)
    simpa using this
  · rw [hring rest.length (by omega), Nat.mod_self]

/-- Evaluation for C19: with `OS_MAX_TASKS = 256`, the 256 creations of `Demo.tasks` all
return and leave `task_num` at 0, not 256, with slot 0 holding the stack pointer of the
first task; a 257th call then passes the capacity test, returns, and overwrites slot 0
with the stack pointer of its own frame, making slot 0 current and its own successor. -/
theorem counter_wraps_at_256 :
    ∃ s, createAll ⟨256, false⟩ (Demo.tasks 256) (initState Demo.mem Demo.cpu) = some s ∧
      s.task_num = 0 ∧
      (s.OSTCBTbl 0).OSTCBStkPtr = sub32 0x200003FC 60 ∧
      ∃ s1, TaskCreate ⟨256, false⟩ 0x08001101 0x200203FC s = Outcome.returned s1 ∧
        (s1.OSTCBTbl 0).OSTCBStkPtr = sub32 0x200203FC 60 ∧
        s1.OSTCBCur = some 0 ∧ (s1.OSTCBTbl 0).OSTCBNext = some 0 ∧ s1.task_num = 1 := by
  have hsplit : Demo.tasks 256 = (0x08000101, 0x200003FC) :: (Demo.tasks 256).tail := by
    rfl
  have hlen2 : (Demo.tasks 256).tail.length = 255 := by simp [Demo.tasks]
  obtain ⟨-, s, -, -, hs, hsp, htn, -⟩ := createAll_first ⟨256, false⟩ 0x08000101 0x200003FC
    (Demo.tasks 256).tail Demo.mem Demo.cpu (by norm_num) (by rw [hlen2])
    (by rw [hlen2])
  rw [← hsplit] at hs
  rw [hlen2] at htn
  have htn0 : s.task_num = 0 := htn
  have hfl : (frameWords ⟨256, false⟩ 0x08000101).length = 15 := by
    rw [frameWords_length]; rfl
  rw [hfl] at hsp
  refine ⟨s, hs, htn0, hsp, ?_⟩
  have hroom : s.task_num < (⟨256, false⟩ : Config).OS_MAX_TASKS := by
    rw [htn0]; exact Nat.zero_lt_succ 255
  obtain ⟨s1, h1, -, -, hnx, -, hc1, ht1, -⟩ := TaskCreate_spec ⟨256, false⟩ 0x08001101
    0x200203FC s hroom
  obtain ⟨s1b, h1b, -, -, -, hsp1, -⟩ := TaskCreate_frame ⟨256, false⟩ 0x08001101
    0x200203FC s hroom (by norm_num)
  have hs1 : s1b = s1 := Outcome.returned.inj (h1b.symm.trans h1)
  subst hs1
  have hfl2 : (frameWords ⟨256, false⟩ 0x08001101).length = 15 := by
    rw [frameWords_length]; rfl
  rw [hfl2, htn0] at hsp1
  rw [htn0] at hnx hc1 ht1
  exact ⟨s1b, h1, hsp1, hc1, hnx, ht1⟩


/-! ## The first task to run -/

theorem createAll_mem (cfg : Config) (args : List (Nat × Nat)) (s s1 : State) (x : Nat)
    (hx : ∀ a, a ∈ args → a.2 < 4294967296 ∧ x ≠ a.2 ∧
      ∀ i, i < (if cfg.fpu then 48 else 15) → x ≠ sub32 a.2 (4 * (i + 1)))
    (hc : createAll cfg args s = some s1) : s1.mem x = s.mem x := by
  induction args generalizing s with
  | nil =>
    simp only [createAll, Option.some.injEq] at hc
    subst hc; rfl
  | cons a rest ih =>
    simp only [createAll] at hc
    cases hT : TaskCreate cfg a.1 a.2 s with
    | spins s2 => rw [hT] at hc; simp at hc
    | returned s2 =>
      rw [hT] at hc
      simp only at hc
      have hroom := TaskCreate_returned_room cfg a.1 a.2 s s2 hT
      obtain ⟨ha1, ha2, ha3⟩ := hx a (List.mem_cons_self _ _)
      obtain ⟨s2b, h2, -, -, hoth, -⟩ := TaskCreate_frame cfg a.1 a.2 s hroom ha1
      have hs : s2b = s2 := Outcome.returned.inj (h2.symm.trans hT)
      subst hs
      rw [ih s2b (fun b hb => hx b (List.mem_cons_of_mem _ hb)) hc]
      exact hoth x ha2 (by rw [frameWords_length]; exact ha3)

/-- The restore path on a frame that holds the words `TaskCreate(task, stk)` wrote. -/
theorem restore_initial_frame (cfg : Config) (s2 : State) (c j task stk : Nat)
    (htask : task < 4294967296) (hstk : stk < 4294967296)
    (hcur : s2.OSTCBCur = some c) (hnext : (s2.OSTCBTbl c).OSTCBNext = some j)
    (hsp : (s2.OSTCBTbl j).OSTCBStkPtr = sub32 stk (4 * (frameWords cfg task).length))
    (hxpsr : s2.mem stk = 0x01000000)
    (hwords : ∀ i, i < (frameWords cfg task).length →
      s2.mem (sub32 stk (4 * (i + 1))) = (frameWords cfg task).getD i 0) :
    ∃ s3, PendSV_restore cfg s2 = some s3 ∧
      s3.OSTCBCur = some j ∧
      s3.cpu.r 4 = 0x04040404 ∧ s3.cpu.r 5 = 0x05050505 ∧
      s3.cpu.r 6 = 0x06060606 ∧ s3.cpu.r 7 = 0x07070707 ∧
      s3.cpu.r 8 = 0x08080808 ∧ s3.cpu.r 9 = 0x09090909 ∧
      s3.cpu.r 10 = 0x10101010 ∧ s3.cpu.r 11 = 0x11111111 ∧
      s3.cpu.psp = sub32 stk 28 ∧
      s3.mem s3.cpu.psp = 0 ∧
      s3.mem (add32 s3.cpu.psp 4) = 0x01010101 ∧
      s3.mem (add32 s3.cpu.psp 8) = 0x02020202 ∧
      s3.mem (add32 s3.cpu.psp 12) = 0x03030303 ∧
      s3.mem (add32 s3.cpu.psp 16) = 0x12121212 ∧
      s3.mem (add32 s3.cpu.psp 20) = 0xFFFFFFFE ∧
      s3.mem (add32 s3.cpu.psp 24) = task ∧
      s3.mem (add32 s3.cpu.psp 28) = 0x01000000 ∧
      (cfg.fpu = true → s3.cpu.fpscr = 0x02000000 ∧
        ∀ i, i < 32 → s3.cpu.s i = fpuFrame.getD (32 - i) 0) := by
  obtain ⟨s3, h3, hc3, -, hm3, -, -, hr3, -, hpsp3, hfp3, -⟩ :=
    PendSV_restore_spec cfg s2 c j hcur hnext
  rw [hsp, frameWords_length] at hr3 hpsp3 hfp3
  rw [frameWords_length] at hwords
  have hbase : (if cfg.fpu then add32 (add32 (sub32 stk (4 * if cfg.fpu then 48 else 15)) 128) 4
      else sub32 stk (4 * if cfg.fpu then 48 else 15)) = sub32 stk 60 := by
    cases hf : cfg.fpu
    · simp
    · simp only [if_true]; unfold add32 sub32; omega
  rw [hbase] at hr3 hpsp3
  have hpsp : s3.cpu.psp = sub32 stk 28 := by rw [hpsp3]; unfold add32 sub32; omega
  have hpc : task % 4294967296 = task := Nat.mod_eq_of_lt htask
  have hint : ∀ i, i < 15 → s2.mem (sub32 stk (4 * (i + 1))) = (intFrame task).getD i 0 := by
    intro i hi
    rw [hwords i (by split <;> omega), frameWords_getD_int cfg task i hi]
  have hreg : ∀ i, 4 ≤ i → i ≤ 11 → s3.cpu.r i = (intFrame task).getD (18 - i) 0 := by
    intro i h4 h11
    have e : add32 (sub32 stk 60) (4 * (i - 4)) = sub32 stk (4 * (18 - i + 1)) := by
      unfold add32 sub32; omega
    rw [hr3 i h4 h11, e, hint (18 - i) (by omega)]
  have hstack : ∀ d, d < 7 →
      s3.mem (add32 s3.cpu.psp (4 * d)) = (intFrame task).getD (6 - d) 0 := by
    intro d hd
    have e : add32 (sub32 stk 28) (4 * d) = sub32 stk (4 * (6 - d + 1)) := by
      unfold add32 sub32; omega
    rw [hm3, hpsp, e, hint (6 - d) (by omega)]
  refine ⟨s3, h3, hc3, ?_, ?_, ?_, ?_, ?_, ?_, ?_, ?_, hpsp, ?_, ?_, ?_, ?_, ?_, ?_, ?_, ?_, ?_⟩
  · rw [hreg 4 (by omega) (by omega)]; simp [intFrame]
  · rw [hreg 5 (by omega) (by omega)]; simp [intFrame]
  · rw [hreg 6 (by omega) (by omega)]; simp [intFrame]
  · rw [hreg 7 (by omega) (by omega)]; simp [intFrame]
  · rw [hreg 8 (by omega) (by omega)]; simp [intFrame]
  · rw [hreg 9 (by omega) (by omega)]; simp [intFrame]
  · rw [hreg 10 (by omega) (by omega)]; simp [intFrame]
  · rw [hreg 11 (by omega) (by omega)]; simp [intFrame]
  · have := hstack 0 (by omega)
    have e : add32 s3.cpu.psp (4 * 0) = s3.cpu.psp := by rw [hpsp]; unfold add32 sub32; omega
    rw [e] at this; rw [this]; simp [intFrame]
  · rw [hstack 1 (by omega)]; simp [intFrame]
  · rw [hstack 2 (by omega)]; simp [intFrame]
  · rw [hstack 3 (by omega)]; simp [intFrame]
  · rw [hstack 4 (by omega)]; simp [intFrame]
  · rw [hstack 5 (by omega)]; simp [intFrame]
  · rw [hstack 6 (by omega)]; simp [intFrame, hpc]
  · have e : add32 (sub32 stk 28) 28 = stk := by unfold add32 sub32; omega
    rw [hm3, hpsp, e]; exact hxpsr
  · intro hf
    obtain ⟨hs3, hfpscr⟩ := hfp3 hf
    simp only [hf, if_true] at hwords hs3 hfpscr
    refine ⟨?_, ?_⟩
    · rw [hfpscr]
      have := hwords 15 (by omega)
      rw [frameWords_getD_fpu cfg task 0 hf] at this
      have e : add32 (sub32 stk (4 * 48)) 128 = sub32 stk (4 * (15 + 1)) := by
        unfold add32 sub32; omega
      rw [e, this]; simp [fpuFrame]
    · intro i hi
      rw [hs3 i hi]
      have := hwords (15 + (32 - i)) (by omega)
      rw [frameWords_getD_fpu cfg task (32 - i) hf] at this
      have e : add32 (sub32 stk (4 * 48)) (4 * i) = sub32 stk (4 * (15 + (32 - i) + 1)) := by
        unfold add32 sub32; omega
      rw [e, this]


/-- First switch while the slot counter has not wrapped: let a first call
`TaskCreate(task, stk)` be followed by further
creations, at most 256 in all and within `OS_MAX_TASKS`. All return; the cursor is left
on the last slot filled, whose link is slot 0. After `OSStart` (`PSP = 0`) the first run
of `PendSV_Handler` returns with the cursor on slot 0, PSP on the R0 word of the first
frame (7 words below `stk`) and R4..R11 loaded from the words of that frame. When no
later creation has written into the first frame, these are the values `TaskCreate`
wrote for the first task: the sentinels of R4..R11, and above PSP the exception frame
R0 = 0, R1, R2, R3, R12, LR = 0xFFFFFFFE, PC = task, xPSR = 0x01000000 (in the FPU build
also FPSCR and S0..S31). -/
theorem first_task_runs_first (cfg : Config) (task stk : Nat) (rest : List (Nat × Nat))
    (mem : Mem) (cpu : CPU) (htask : task < 4294967296) (hstk : stk < 4294967296)
    (hmax : rest.length + 1 ≤ cfg.OS_MAX_TASKS) (h256 : rest.length + 1 ≤ 256) :
    ∃ s0 s1, createAll cfg ((task, stk) :: rest) (initState mem cpu) = some s0 ∧
      s0.OSTCBCur = some rest.length ∧
      (s0.OSTCBTbl rest.length).OSTCBNext = some 0 ∧
      (OSStart s0).cpu.psp = 0 ∧
      PendSV_Handler cfg (OSStart s0) = some s1 ∧
      s1.OSTCBCur = some 0 ∧
      s1.cpu.psp = sub32 stk 28 ∧
      (∀ i, 4 ≤ i → i ≤ 11 → s1.cpu.r i = s0.mem (sub32 stk (4 * (19 - i)))) ∧
      ((∀ a, a ∈ rest → a.2 < 4294967296 ∧
          ∀ d e, d ≤ (if cfg.fpu then 48 else 15) → e ≤ (if cfg.fpu then 48 else 15) →
            sub32 stk (4 * e) ≠ sub32 a.2 (4 * d)) →
        s1.cpu.r 4 = 0x04040404 ∧ s1.cpu.r 5 = 0x05050505 ∧
        s1.cpu.r 6 = 0x06060606 ∧ s1.cpu.r 7 = 0x07070707 ∧
        s1.cpu.r 8 = 0x08080808 ∧ s1.cpu.r 9 = 0x09090909 ∧
        s1.cpu.r 10 = 0x10101010 ∧ s1.cpu.r 11 = 0x11111111 ∧
        s1.mem s1.cpu.psp = 0 ∧
        s1.mem (add32 s1.cpu.psp 4) = 0x01010101 ∧
        s1.mem (add32 s1.cpu.psp 8) = 0x02020202 ∧
        s1.mem (add32 s1.cpu.psp 12) = 0x03030303 ∧
        s1.mem (add32 s1.cpu.psp 16) = 0x12121212 ∧
        s1.mem (add32 s1.cpu.psp 20) = 0xFFFFFFFE ∧
        s1.mem (add32 s1.cpu.psp 24) = task ∧
        s1.mem (add32 s1.cpu.psp 28) = 0x01000000 ∧
        (cfg.fpu = true → s1.cpu.fpscr = 0x02000000 ∧
          ∀ i, i < 32 → s1.cpu.s i = fpuFrame.getD (32 - i) 0)) := by
  obtain ⟨sa, s0, ha, hrest, hs0, hsp, -, hcur, hnx⟩ :=
    createAll_first cfg task stk rest mem cpu hstk hmax h256
  have hH : PendSV_Handler cfg (OSStart s0)
      = PendSV_restore cfg { OSStart s0 with cpu := { (OSStart s0).cpu with primask := true } } := by
    simp only [PendSV_Handler, PendSV_save_psp_zero cfg (OSStart s0) rfl]
  obtain ⟨s1, h1, hc1, -, hm1, -, -, hr1, -, hpsp1, -⟩ := PendSV_restore_spec cfg
    { OSStart s0 with cpu := { (OSStart s0).cpu with primask := true } } rest.length 0 hcur hnx
  have hsp' : ({ OSStart s0 with cpu := { (OSStart s0).cpu with primask := true } }.OSTCBTbl
      0).OSTCBStkPtr = sub32 stk (4 * (frameWords cfg task).length) := hsp
  rw [hsp', frameWords_length] at hr1 hpsp1
  have hbase : (if cfg.fpu then add32 (add32 (sub32 stk (4 * if cfg.fpu then 48 else 15)) 128) 4
      else sub32 stk (4 * if cfg.fpu then 48 else 15)) = sub32 stk 60 := by
    cases hf : cfg.fpu
    · simp
    · simp only [if_true]; unfold add32 sub32; omega
  rw [hbase] at hr1 hpsp1
  refine ⟨s0, s1, hs0, hcur, hnx, rfl, by rw [hH]; exact h1, hc1, ?_, ?_, ?_⟩
  · rw [hpsp1]; unfold add32 sub32; omega
  · intro i h4 h11
    have e : add32 (sub32 stk 60) (4 * (i - 4)) = sub32 stk (4 * (19 - i)) := by
      unfold add32 sub32; omega
    rw [hr1 i h4 h11, e]
    rfl
  · intro hdis
    obtain ⟨sb, hb, hx, hwords, -, -, -⟩ := TaskCreate_frame cfg task stk (initState mem cpu)
      (by simp only [initState]; omega) hstk
    have hab : sb = sa := Outcome.returned.inj (hb.symm.trans ha)
    subst hab
    have hkeep : ∀ e, e ≤ (if cfg.fpu then 48 else 15) →
        s0.mem (sub32 stk (4 * e)) = sb.mem (sub32 stk (4 * e)) := by
      intro e he
      apply createAll_mem cfg rest sb s0 _ _ hrest
      intro a ha'
      obtain ⟨ha1, ha2⟩ := hdis a ha'
      refine ⟨ha1, ?_, fun i hi => ha2 (i + 1) e (by omega) he⟩
      have := ha2 0 e (by omega) he
      have e0 : sub32 a.2 (4 * 0) = a.2 := by unfold sub32; omega
      rw [e0] at this
      exact this
    have hstk0 : sub32 stk (4 * 0) = stk := by unfold sub32; omega
    obtain ⟨s3, h3, -, rest3⟩ := restore_initial_frame cfg
      { OSStart s0 with cpu := { (OSStart s0).cpu with primask := true } } rest.length 0 task stk
      htask hstk hcur hnx hsp
      (by have := hkeep 0 (by omega); rw [hstk0] at this; exact this.trans hx)
      (fun i hi => by
        rw [frameWords_length] at hi
        exact (hkeep (i + 1) (by omega)).trans (hwords i (by rw [frameWords_length]; exact hi)))
    have h31 : s3 = s1 := Option.some.inj (h3.symm.trans h1)
    subst h31
    obtain ⟨r4, r5, r6, r7, r8, r9, r10, r11, -, w⟩ := rest3
    exact ⟨r4, r5, r6, r7, r8, r9, r10, r11, w⟩

/-- Instance of `first_task_runs_first`: two tasks with separate stacks in a build without
FPU. -/
theorem first_task_runs_first_witness :
    ∃ s0 s1, createAll ⟨4, false⟩ [(0x08000101, 0x200003FC), (0x08000111, 0x200005FC)]
        (initState Demo.mem Demo.cpu) = some s0 ∧
      PendSV_Handler ⟨4, false⟩ (OSStart s0) = some s1 ∧
      s1.OSTCBCur = some 0 ∧ s1.cpu.psp = sub32 0x200003FC 28 ∧
      s1.cpu.r 4 = 0x04040404 ∧ s1.mem (add32 s1.cpu.psp 24) = 0x08000101 := by
  obtain ⟨s0, s1, h0, -, -, -, h1, hc, hpsp, -, hfr⟩ := first_task_runs_first ⟨4, false⟩
    0x08000101 0x200003FC [(0x08000111, 0x200005FC)] Demo.mem Demo.cpu (by norm_num)
    (by norm_num) (by decide) (by decide)
  obtain ⟨r4, -, -, -, -, -, -, -, -, -, -, -, -, -, hpc, -⟩ := hfr (by
    intro a ha
    simp only [List.mem_singleton] at ha
    subst ha
    refine ⟨by norm_num, fun d e hd he => ?_⟩
    simp only [Bool.false_eq_true, if_false] at hd he
    unfold sub32; omega)
  exact ⟨s0, s1, h0, h1, hc, hpsp, r4, hpc⟩

section
set_option maxRecDepth 8000

/-- C17, evaluated at the failing input: with `OS_MAX_TASKS = 257` and the 257 creations of
`Demo.tasks`, the first run of `PendSV_Handler` after `OSStart` leaves PSP on the R0
word of the frame of the 257th task, not of the first: the 257th creation, made with
the 8-bit `task_num` back at 0, has taken slot 0 over. -/
theorem first_run_is_task_257 :
    (Demo.tasks 257).length ≤ (⟨257, false⟩ : Config).OS_MAX_TASKS ∧
    (Demo.tasks 257).head? = some (0x08000101, 0x200003FC) ∧
    (Demo.tasks 257).getLast? = some (0x08001101, 0x200203FC) ∧
    ((createAll ⟨257, false⟩ (Demo.tasks 257) (initState Demo.mem Demo.cpu)).bind
        (fun s0 => PendSV_Handler ⟨257, false⟩ (OSStart s0))).map
      (fun s1 => (s1.OSTCBCur, s1.cpu.psp)) = some (some 0, 0x200203E0) ∧
    ¬ ∃ s0 s1, createAll ⟨257, false⟩ (Demo.tasks 257) (initState Demo.mem Demo.cpu) = some s0 ∧
      PendSV_Handler ⟨257, false⟩ (OSStart s0) = some s1 ∧
      s1.cpu.psp = sub32 0x200003FC 28 := by
  have h0 : ((createAll ⟨257, false⟩ (Demo.tasks 257) (initState Demo.mem Demo.cpu)).bind
        (fun s0 => PendSV_Handler ⟨257, false⟩ (OSStart s0))).map
      (fun s1 => (s1.OSTCBCur, s1.cpu.psp)) = some (some 0, 0x200203E0) := by decide
  refine ⟨by decide, by decide, by decide, h0, ?_⟩
  rintro ⟨s0, s1, hs0, hs1, hpsp⟩
  rw [hs0] at h0
  simp only [Option.some_bind, hs1, Option.map_some', Option.some.injEq, Prod.mk.injEq] at h0
  rw [h0.2] at hpsp
  exact absurd hpsp (by decide)

end

end MinOS
